import Mathlib

set_option autoImplicit false

namespace PadelWatcher

/-!
Shallow embedding of the availability-reconciliation, caching, matching,
notification-dedup, task and scheduler core of the padelwatcher backend
(`src/backend/app`).  Times of day are modelled as minutes since midnight,
timestamps as integer seconds.  Database tables are lists of rows threaded
through the service functions; SQLAlchemy's autoflush makes a query inside a
loop see the session's earlier pending writes, which matches this explicit
state threading.
-/

/-- Calendar date as produced by `datetime.strptime(s, "%Y-%m-%d").date()`. -/
structure PDate where
  year : Nat
  month : Nat
  day : Nat
deriving DecidableEq, Repr

/-- Persisted `Availability` row (`app/models.py`): one bookable slot on a
court.  `start_time`/`end_time` are minutes since midnight, `duration` is in
minutes, `price` is an opaque string, `available` the availability flag. -/
@[ext]
structure Availability where
  id : Nat
  court_id : Nat
  date : PDate
  start_time : Nat
  end_time : Nat
  duration : Nat
  price : String
  available : Bool
deriving DecidableEq, Repr

/-- An `Availability` object handed to `bulk_add_availabilities` before it is
persisted: all data fields of the row, with no primary key assigned yet. -/
structure AvailabilityRecord where
  court_id : Nat
  date : PDate
  start_time : Nat
  end_time : Nat
  duration : Nat
  price : String
  available : Bool
deriving DecidableEq, Repr

/-- The availability table together with its primary-key counter. -/
structure AvailStore where
  rows : List Availability
  nextId : Nat
deriving DecidableEq, Repr

/-- Duplicate-detection test of `bulk_add_availabilities`
(`services/availability_service.py` lines 63-72): an existing row matches a
record on `(court_id, date, start_time, end_time)`. -/
def availMatches (r : AvailabilityRecord) (a : Availability) : Bool :=
  a.court_id == r.court_id && a.date == r.date &&
    a.start_time == r.start_time && a.end_time == r.end_time

/-- In-place update of an existing row by `bulk_add_availabilities`
(lines 74-79): price, availability flag and duration are overwritten. -/
def applyBulkUpdate (r : AvailabilityRecord) (a : Availability) : Availability :=
  { a with price := r.price, available := r.available, duration := r.duration }

/-- Replace the first element satisfying `p` by its image under `f`
(the effect of mutating the result of `.first()` in the session). -/
def updateFirst {α : Type} (p : α → Bool) (f : α → α) : List α → List α
  | [] => []
  | a :: rest => if p a then f a :: rest else a :: updateFirst p f rest

/-- Row created for a record that had no duplicate (`session.add`). -/
def newAvail (id : Nat) (r : AvailabilityRecord) : Availability :=
  ⟨id, r.court_id, r.date, r.start_time, r.end_time, r.duration, r.price, r.available⟩

/-- Statistics dictionary returned by `bulk_add_availabilities`. -/
structure BulkStats where
  added : Nat
  updated : Nat
  total : Nat
deriving DecidableEq, Repr

/-- State effect of one iteration of the `bulk_add_availabilities` loop. -/
def bulkUpsert (s : AvailStore) (r : AvailabilityRecord) : AvailStore :=
  match s.rows.find? (availMatches r) with
  | some _ => { s with rows := updateFirst (availMatches r) (applyBulkUpdate r) s.rows }
  | none => { rows := s.rows ++ [newAvail s.nextId r], nextId := s.nextId + 1 }

/-- One iteration of the `bulk_add_availabilities` loop, including the
statistics bookkeeping. -/
def bulkAddStep (p : AvailStore × BulkStats) (r : AvailabilityRecord) :
    AvailStore × BulkStats :=
  match p.1.rows.find? (availMatches r) with
  | some _ =>
      ({ p.1 with rows := updateFirst (availMatches r) (applyBulkUpdate r) p.1.rows },
       { p.2 with updated := p.2.updated + 1 })
  | none =>
      ({ rows := p.1.rows ++ [newAvail p.1.nextId r], nextId := p.1.nextId + 1 },
       { p.2 with added := p.2.added + 1 })

/-- `AvailabilityService.bulk_add_availabilities`
(`services/availability_service.py` lines 44-86): upsert every record into the
availability table, detecting duplicates by `(court_id, date, start_time,
end_time)`, and report added/updated/total counts. -/
def bulk_add_availabilities (availabilities : List AvailabilityRecord)
    (store : AvailStore) : AvailStore × BulkStats :=
  availabilities.foldl bulkAddStep (store, ⟨0, 0, availabilities.length⟩)

/-- State component of a whole `bulk_add_availabilities` run. -/
def bulkState (rs : List AvailabilityRecord) (s : AvailStore) : AvailStore :=
  rs.foldl bulkUpsert s

/-- Natural key of a persisted row used for duplicate detection. -/
def rowKey (a : Availability) : Nat × PDate × Nat × Nat :=
  (a.court_id, a.date, a.start_time, a.end_time)

/-- Natural key of an incoming record. -/
def recKey (r : AvailabilityRecord) : Nat × PDate × Nat × Nat :=
  (r.court_id, r.date, r.start_time, r.end_time)

theorem availMatches_iff (r : AvailabilityRecord) (a : Availability) :
    availMatches r a = true ↔ rowKey a = recKey r := by
  simp [availMatches, rowKey, recKey, Prod.ext_iff, Bool.and_eq_true, beq_iff_eq,
    and_assoc]

/-- A function is payload-only when it can change price, availability and
duration but no identity or key field of a row. -/
def PayloadOnly (f : Availability → Availability) : Prop :=
  ∀ a, (f a).id = a.id ∧ (f a).court_id = a.court_id ∧ (f a).date = a.date ∧
    (f a).start_time = a.start_time ∧ (f a).end_time = a.end_time

theorem payloadOnly_applyBulkUpdate (r : AvailabilityRecord) :
    PayloadOnly (applyBulkUpdate r) := by
  intro a; simp [applyBulkUpdate]

theorem rowKey_of_payloadOnly {f : Availability → Availability}
    (hf : PayloadOnly f) (a : Availability) : rowKey (f a) = rowKey a := by
  obtain ⟨h1, h2, h3, h4, h5⟩ := hf a
  simp [rowKey, h2, h3, h4, h5]

theorem availMatches_of_payloadOnly {f : Availability → Availability}
    (hf : PayloadOnly f) (r : AvailabilityRecord) (a : Availability) :
    availMatches r (f a) = availMatches r a := by
  by_cases h : availMatches r a = true
  · have := (availMatches_iff r a).1 h
    have : rowKey (f a) = recKey r := by rw [rowKey_of_payloadOnly hf]; exact this
    simp [h, (availMatches_iff r (f a)).2 this]
  · have hb : availMatches r a = false := by
      cases hx : availMatches r a
      · rfl
      · exact absurd hx h
    have : ¬ rowKey (f a) = recKey r := by
      intro hk
      rw [rowKey_of_payloadOnly hf] at hk
      exact h ((availMatches_iff r a).2 hk)
    have : availMatches r (f a) = false := by
      cases hx : availMatches r (f a)
      · rfl
      · exact absurd ((availMatches_iff r (f a)).1 hx) this
    rw [this, hb]

theorem availMatches_key_congr {r r' : AvailabilityRecord}
    (h : recKey r = recKey r') : availMatches r = availMatches r' := by
  funext a
  by_cases hx : availMatches r a = true
  · have := (availMatches_iff r a).1 hx
    rw [hx, eq_comm]
    exact (availMatches_iff r' a).2 (h ▸ this)
  · have h1 : availMatches r a = false := by
      cases hy : availMatches r a
      · rfl
      · exact absurd hy hx
    have h2 : availMatches r' a = false := by
      cases hy : availMatches r' a
      · rfl
      · exact absurd ((availMatches_iff r a).2 (h ▸ (availMatches_iff r' a).1 hy)) hx
    rw [h1, h2]

theorem availMatches_key_ne {r r' : AvailabilityRecord}
    (h : recKey r ≠ recKey r') (a : Availability) (ha : availMatches r' a = true) :
    availMatches r a = false := by
  cases hx : availMatches r a
  · rfl
  · exact absurd (((availMatches_iff r a).1 hx).symm.trans ((availMatches_iff r' a).1 ha)) h

section UpdateFirstLemmas

variable {α : Type} {p q : α → Bool} {f g : α → α}

theorem updateFirst_cons_pos {a : α} (l : List α) (h : p a = true) :
    updateFirst p f (a :: l) = f a :: l := by
  simp [updateFirst, h]

theorem updateFirst_cons_neg {a : α} (l : List α) (h : p a = false) :
    updateFirst p f (a :: l) = a :: updateFirst p f l := by
  simp [updateFirst, h]

theorem updateFirst_of_find?_none {l : List α}
    (h : l.find? p = none) : updateFirst p f l = l := by
  induction l with
  | nil => rfl
  | cons a rest ih =>
      cases hx : p a
      · rw [List.find?_cons_of_neg rest (by simp [hx])] at h
        rw [updateFirst_cons_neg rest hx, ih h]
      · rw [List.find?_cons_of_pos rest hx] at h
        exact absurd h (by simp)

theorem find?_updateFirst_self {l : List α}
    (hf : ∀ a, p (f a) = p a) :
    (updateFirst p f l).find? p = (l.find? p).map f := by
  induction l with
  | nil => rfl
  | cons a rest ih =>
      cases hx : p a
      · rw [updateFirst_cons_neg rest hx,
          List.find?_cons_of_neg _ (by simp [hx]),
          List.find?_cons_of_neg rest (by simp [hx]), ih]
      · rw [updateFirst_cons_pos rest hx,
          List.find?_cons_of_pos _ (by rw [hf a]; exact hx),
          List.find?_cons_of_pos rest hx]
        rfl

theorem find?_updateFirst_other {l : List α}
    (hq : ∀ a, p a = true → q a = false) (hf : ∀ a, q (f a) = q a) :
    (updateFirst p f l).find? q = l.find? q := by
  induction l with
  | nil => rfl
  | cons a rest ih =>
      cases hx : p a
      · rw [updateFirst_cons_neg rest hx]
        cases hy : q a
        · rw [List.find?_cons_of_neg _ (by simp [hy]),
            List.find?_cons_of_neg rest (by simp [hy]), ih]
        · rw [List.find?_cons_of_pos _ hy, List.find?_cons_of_pos rest hy]
      · rw [updateFirst_cons_pos rest hx,
          List.find?_cons_of_neg _ (by simp [hf a, hq a hx]),
          List.find?_cons_of_neg rest (by simp [hq a hx])]

theorem updateFirst_comm {l : List α}
    (hpq : ∀ a, p a = true → q a = false)
    (hfq : ∀ a, q (f a) = q a) (hgp : ∀ a, p (g a) = p a) :
    updateFirst p f (updateFirst q g l) = updateFirst q g (updateFirst p f l) := by
  induction l with
  | nil => rfl
  | cons a rest ih =>
      cases hx : p a
      · cases hy : q a
        · rw [updateFirst_cons_neg rest hy, updateFirst_cons_neg _ hx,
            updateFirst_cons_neg rest hx, updateFirst_cons_neg _ hy, ih]
        · rw [updateFirst_cons_pos rest hy, updateFirst_cons_neg _ (by rw [hgp a]; exact hx),
            updateFirst_cons_neg rest hx, updateFirst_cons_pos _ hy]
      · have hy : q a = false := hpq a hx
        rw [updateFirst_cons_neg rest hy, updateFirst_cons_pos _ hx,
          updateFirst_cons_pos rest hx, updateFirst_cons_neg _ (by rw [hfq a]; exact hy)]

theorem updateFirst_collapse {l : List α}
    (hf : ∀ a, p (f a) = p a) :
    updateFirst p g (updateFirst p f l) = updateFirst p (fun a => g (f a)) l := by
  induction l with
  | nil => rfl
  | cons a rest ih =>
      cases hx : p a
      · rw [updateFirst_cons_neg rest hx, updateFirst_cons_neg _ hx,
          updateFirst_cons_neg rest hx, ih]
      · rw [updateFirst_cons_pos rest hx, updateFirst_cons_pos _ (by rw [hf a]; exact hx),
          updateFirst_cons_pos rest hx]

theorem updateFirst_congr {l : List α}
    (h : ∀ a, p a = true → f a = g a) :
    updateFirst p f l = updateFirst p g l := by
  induction l with
  | nil => rfl
  | cons a rest ih =>
      cases hx : p a
      · rw [updateFirst_cons_neg rest hx, updateFirst_cons_neg rest hx, ih]
      · rw [updateFirst_cons_pos rest hx, updateFirst_cons_pos rest hx, h a hx]

theorem updateFirst_id_of_fixed {l : List α} {a : α}
    (h : l.find? p = some a) (hfix : f a = a) : updateFirst p f l = l := by
  induction l with
  | nil => simp at h
  | cons b rest ih =>
      cases hx : p b
      · rw [List.find?_cons_of_neg rest (by simp [hx])] at h
        rw [updateFirst_cons_neg rest hx, ih h]
      · rw [List.find?_cons_of_pos rest hx] at h
        simp only [Option.some.injEq] at h
        subst h
        rw [updateFirst_cons_pos rest hx, hfix]

theorem updateFirst_append_of_none {l l' : List α}
    (h : l.find? p = none) :
    updateFirst p f (l ++ l') = l ++ updateFirst p f l' := by
  induction l with
  | nil => rfl
  | cons a rest ih =>
      cases hx : p a
      · rw [List.find?_cons_of_neg rest (by simp [hx])] at h
        rw [List.cons_append, updateFirst_cons_neg _ hx, ih h, List.cons_append]
      · rw [List.find?_cons_of_pos rest hx] at h
        exact absurd h (by simp)

theorem updateFirst_append_left {l l' : List α}
    (h : (l.find? p).isSome) :
    updateFirst p f (l ++ l') = updateFirst p f l ++ l' := by
  induction l with
  | nil => simp [List.find?] at h
  | cons a rest ih =>
      cases hx : p a
      · rw [List.find?_cons_of_neg rest (by simp [hx])] at h
        rw [List.cons_append, updateFirst_cons_neg _ hx, updateFirst_cons_neg rest hx,
          List.cons_append, ih h]
      · rw [List.cons_append, updateFirst_cons_pos _ hx, updateFirst_cons_pos rest hx,
          List.cons_append]

theorem find?_append_left {l l' : List α} {a : α}
    (h : l.find? q = some a) : (l ++ l').find? q = some a := by
  rw [List.find?_append, h]; rfl

theorem find?_append_none {l l' : List α}
    (h : l.find? q = none) : (l ++ l').find? q = l'.find? q := by
  rw [List.find?_append, h]; rfl

end UpdateFirstLemmas

section OrderBy

/-- Insert `x` after every already-placed element `y` with `le y x`: the
insertion step of a stable insertion sort. -/
def insertSorted {α : Type} (le : α → α → Bool) (x : α) : List α → List α
  | [] => [x]
  | y :: ys => if le y x then y :: insertSorted le x ys else x :: y :: ys

/-- Stable sort by `le` (models SQL `ORDER BY` and Python `sorted`, both
stable).  Written as a structurally recursive insertion sort so that concrete
instances reduce inside the kernel. -/
def orderBy {α : Type} (le : α → α → Bool) (l : List α) : List α :=
  l.foldl (fun acc x => insertSorted le x acc) []

theorem mem_insertSorted {α : Type} (le : α → α → Bool) (x a : α) :
    ∀ l : List α, a ∈ insertSorted le x l ↔ a ∈ x :: l := by
  intro l
  induction l with
  | nil => simp [insertSorted]
  | cons y ys ih =>
      by_cases h : le y x = true
      · simp only [insertSorted, if_pos h, List.mem_cons, ih, List.mem_cons]
        tauto
      · have h' : le y x = false := by
          cases hx : le y x
          · rfl
          · exact absurd hx h
        simp [insertSorted, h']

theorem mem_orderBy {α : Type} (le : α → α → Bool) (a : α) (l : List α) :
    a ∈ orderBy le l ↔ a ∈ l := by
  have hgen : ∀ (l acc : List α),
      (a ∈ l.foldl (fun acc x => insertSorted le x acc) acc ↔ a ∈ acc ∨ a ∈ l) := by
    intro l
    induction l with
    | nil => intro acc; simp
    | cons x xs ih =>
        intro acc
        rw [List.foldl_cons, ih (insertSorted le x acc)]
        rw [mem_insertSorted]
        simp [List.mem_cons]
        tauto
  rw [orderBy, hgen l []]
  simp

@[simp]
theorem orderBy_nil {α : Type} (le : α → α → Bool) : orderBy le [] = [] := rfl

@[simp]
theorem orderBy_singleton {α : Type} (le : α → α → Bool) (a : α) :
    orderBy le [a] = [a] := rfl

end OrderBy

section BulkReplay

theorem availMatches_applyBulkUpdate (r r' : AvailabilityRecord) (a : Availability) :
    availMatches r (applyBulkUpdate r' a) = availMatches r a :=
  availMatches_of_payloadOnly (payloadOnly_applyBulkUpdate r') r a

theorem bulkAddStep_fst (s : AvailStore) (st : BulkStats) (r : AvailabilityRecord) :
    (bulkAddStep (s, st) r).1 = bulkUpsert s r := by
  unfold bulkAddStep bulkUpsert
  cases s.rows.find? (availMatches r) <;> rfl

theorem foldl_bulkAddStep_fst (rs : List AvailabilityRecord) :
    ∀ (s : AvailStore) (st : BulkStats),
      (rs.foldl bulkAddStep (s, st)).1 = bulkState rs s := by
  induction rs with
  | nil => intro s st; rfl
  | cons r rest ih =>
      intro s st
      rw [List.foldl_cons, bulkState, List.foldl_cons]
      have hpair : bulkAddStep (s, st) r =
          ((bulkAddStep (s, st) r).1, (bulkAddStep (s, st) r).2) := rfl
      rw [hpair, ih, bulkAddStep_fst]
      rfl

theorem keyPresent_bulkUpsert {r₀ : AvailabilityRecord} {s : AvailStore}
    (r : AvailabilityRecord)
    (h : (s.rows.find? (availMatches r₀)).isSome) :
    ((bulkUpsert s r).rows.find? (availMatches r₀)).isSome := by
  unfold bulkUpsert
  cases hf : s.rows.find? (availMatches r) with
  | some a =>
      simp only
      by_cases hk : recKey r = recKey r₀
      · rw [availMatches_key_congr hk,
          find?_updateFirst_self (fun a => availMatches_applyBulkUpdate r₀ r a)]
        simpa using h
      · rw [find?_updateFirst_other
          (fun a ha => availMatches_key_ne (fun hrr => hk hrr.symm) a ha)
          (fun a => availMatches_applyBulkUpdate r₀ r a)]
        exact h
  | none =>
      simp only
      rw [List.find?_append]
      obtain ⟨a, ha⟩ := Option.isSome_iff_exists.1 h
      rw [ha]
      rfl

theorem find?_bulkUpsert_self (s : AvailStore) (r : AvailabilityRecord) :
    ∃ a, (bulkUpsert s r).rows.find? (availMatches r) = some a ∧
      a.price = r.price ∧ a.available = r.available ∧ a.duration = r.duration := by
  unfold bulkUpsert
  cases hf : s.rows.find? (availMatches r) with
  | some a0 =>
      refine ⟨applyBulkUpdate r a0, ?_, rfl, rfl, rfl⟩
      simp only
      rw [find?_updateFirst_self (fun a => availMatches_applyBulkUpdate r r a), hf]
      rfl
  | none =>
      refine ⟨newAvail s.nextId r, ?_, rfl, rfl, rfl⟩
      simp only
      rw [List.find?_append, hf]
      have hm : availMatches r (newAvail s.nextId r) = true := by
        simp [availMatches, newAvail]
      rw [Option.none_or, List.find?_cons_of_pos _ hm]

theorem keyPresent_bulkState_mono (rs : List AvailabilityRecord) :
    ∀ (s : AvailStore) (r₀ : AvailabilityRecord),
      (s.rows.find? (availMatches r₀)).isSome →
      ((bulkState rs s).rows.find? (availMatches r₀)).isSome := by
  induction rs with
  | nil => intro s r₀ h; exact h
  | cons r rest ih =>
      intro s r₀ h
      rw [bulkState, List.foldl_cons]
      exact ih _ _ (keyPresent_bulkUpsert r h)

theorem keyPresent_bulkState (rs : List AvailabilityRecord) :
    ∀ (s : AvailStore) (r : AvailabilityRecord), r ∈ rs →
      ((bulkState rs s).rows.find? (availMatches r)).isSome := by
  induction rs with
  | nil => intro s r h; simp at h
  | cons r0 rest ih =>
      intro s r h
      rw [bulkState, List.foldl_cons]
      rcases List.mem_cons.1 h with rfl | hr
      · obtain ⟨a, ha, _⟩ := find?_bulkUpsert_self s r
        exact keyPresent_bulkState_mono rest _ r (by rw [ha]; rfl)
      · exact ih _ _ hr

theorem bulk_stats_all_present (rs : List AvailabilityRecord) :
    ∀ (s : AvailStore) (st : BulkStats),
      (∀ r ∈ rs, (s.rows.find? (availMatches r)).isSome) →
      (rs.foldl bulkAddStep (s, st)).2 =
        ⟨st.added, st.updated + rs.length, st.total⟩ := by
  induction rs with
  | nil => intro s st _; cases st; rfl
  | cons r rest ih =>
      intro s st h
      have hr := h r (List.mem_cons_self r rest)
      obtain ⟨a, ha⟩ := Option.isSome_iff_exists.1 hr
      have hstep : bulkAddStep (s, st) r =
          (bulkUpsert s r, { st with updated := st.updated + 1 }) := by
        simp [bulkAddStep, bulkUpsert, ha]
      rw [List.foldl_cons, hstep,
        ih _ _ (fun r' hr' => keyPresent_bulkUpsert r (h r' (List.mem_cons_of_mem r hr')))]
      simp [BulkStats.mk.injEq]
      omega

theorem applyBulkUpdate_comp_payloadOnly (r0 : AvailabilityRecord)
    {f : Availability → Availability} (hf : PayloadOnly f) (a : Availability) :
    applyBulkUpdate r0 (f a) = applyBulkUpdate r0 a := by
  obtain ⟨h1, h2, h3, h4, h5⟩ := hf a
  apply Availability.ext <;> simp [applyBulkUpdate, h1, h2, h3, h4, h5]

theorem bulkState_payload_insensitive (L : List AvailabilityRecord) :
    ∀ (s : AvailStore) (r : AvailabilityRecord) (f : Availability → Availability),
      PayloadOnly f → (∃ r' ∈ L, recKey r' = recKey r) →
      bulkState L { s with rows := updateFirst (availMatches r) f s.rows } =
        bulkState L s := by
  induction L with
  | nil =>
      intro s r f hf hocc
      obtain ⟨r', h, _⟩ := hocc
      simp at h
  | cons r0 rest ih =>
      intro s r f hf hocc
      rw [bulkState, List.foldl_cons, bulkState, List.foldl_cons]
      by_cases hk : recKey r0 = recKey r
      · -- the head record writes the same key: both runs coincide from here on
        cases hfind : s.rows.find? (availMatches r) with
        | none =>
            rw [updateFirst_of_find?_none hfind]
        | some a =>
            have hpred : availMatches r0 = availMatches r := availMatches_key_congr hk
            have hupd1 : bulkUpsert { s with rows := updateFirst (availMatches r) f s.rows } r0 =
                { s with rows := updateFirst (availMatches r) (fun a => applyBulkUpdate r0 (f a)) s.rows } := by
              unfold bulkUpsert
              rw [hpred]
              rw [find?_updateFirst_self
                (fun a => availMatches_of_payloadOnly hf r a), hfind]
              simp only [Option.map_some]
              rw [updateFirst_collapse (fun a => availMatches_of_payloadOnly hf r a)]
              rfl
            have hupd2 : bulkUpsert s r0 =
                { s with rows := updateFirst (availMatches r) (applyBulkUpdate r0) s.rows } := by
              unfold bulkUpsert
              rw [hpred, hfind]
            rw [hupd1, hupd2,
              updateFirst_congr (fun a _ => applyBulkUpdate_comp_payloadOnly r0 hf a)]
      · -- different key: the patch commutes past the head upsert
        have hne0 : ∀ a, availMatches r a = true → availMatches r0 a = false :=
          fun a ha => availMatches_key_ne hk a ha
        have hner : ∀ a, availMatches r0 a = true → availMatches r a = false :=
          fun a ha => availMatches_key_ne (fun h => hk h.symm) a ha
        have hfind0 : (updateFirst (availMatches r) f s.rows).find? (availMatches r0) =
            s.rows.find? (availMatches r0) :=
          find?_updateFirst_other hne0
            (fun a => availMatches_of_payloadOnly hf r0 a)
        have hcomm : bulkUpsert { s with rows := updateFirst (availMatches r) f s.rows } r0 =
            { bulkUpsert s r0 with
                rows := updateFirst (availMatches r) f (bulkUpsert s r0).rows } := by
          unfold bulkUpsert
          rw [hfind0]
          cases hf0 : s.rows.find? (availMatches r0) with
          | some a0 =>
              simp only
              rw [updateFirst_comm hner
                (fun a => availMatches_applyBulkUpdate r r0 a)
                (fun a => availMatches_of_payloadOnly hf r0 a)]
          | none =>
              simp only
              cases hfr : s.rows.find? (availMatches r) with
              | none =>
                  have hkey : rowKey (newAvail s.nextId r0) = recKey r0 := rfl
                  have hnew : availMatches r (newAvail s.nextId r0) = false := by
                    cases hx : availMatches r (newAvail s.nextId r0)
                    · rfl
                    · exact absurd (hkey ▸ (availMatches_iff r _).1 hx)
                        (fun h => hk h)
                  rw [updateFirst_of_find?_none hfr,
                    updateFirst_append_of_none hfr,
                    updateFirst_cons_neg _ hnew]
                  rfl
              | some ar =>
                  rw [updateFirst_append_left (by rw [hfr]; rfl)]
        rw [hcomm]
        obtain ⟨r', hr', hkey⟩ := hocc
        rcases List.mem_cons.1 hr' with rfl | hmem
        · exact absurd hkey hk
        · exact ih (bulkUpsert s r0) r f hf ⟨r', hmem, hkey⟩

theorem find?_bulkState_untouched (L : List AvailabilityRecord) :
    ∀ (s : AvailStore) (r : AvailabilityRecord) (a : Availability),
      s.rows.find? (availMatches r) = some a →
      (∀ r' ∈ L, recKey r' ≠ recKey r) →
      (bulkState L s).rows.find? (availMatches r) = some a := by
  induction L with
  | nil => intro s r a ha _; exact ha
  | cons r0 rest ih =>
      intro s r a ha hL
      rw [bulkState, List.foldl_cons]
      have hk : recKey r0 ≠ recKey r := hL r0 (List.mem_cons_self r0 rest)
      have hstep : (bulkUpsert s r0).rows.find? (availMatches r) = some a := by
        unfold bulkUpsert
        cases hf0 : s.rows.find? (availMatches r0) with
        | some a0 =>
            simp only
            rw [find?_updateFirst_other
              (fun a ha0 => availMatches_key_ne (fun h => hk h.symm) a ha0)
              (fun a => availMatches_applyBulkUpdate r r0 a)]
            exact ha
        | none =>
            simp only
            exact find?_append_left ha
      exact ih _ _ _ hstep (fun r' hr' => hL r' (List.mem_cons_of_mem r0 hr'))

/-- Replaying any suffix of an already-processed record list leaves the
availability table untouched: the store reached after upserting `L₁ ++ L₂` is a
fixpoint for a second upsert pass over `L₂`. -/
theorem bulkState_replay (L2 : List AvailabilityRecord) :
    ∀ (L1 : List AvailabilityRecord) (s : AvailStore),
      bulkState L2 (bulkState (L1 ++ L2) s) = bulkState (L1 ++ L2) s := by
  induction L2 with
  | nil => intro L1 s; rfl
  | cons r rest ih =>
      intro L1 s
      have hassoc : L1 ++ r :: rest = (L1 ++ [r]) ++ rest := by simp
      have hpres : ((bulkState (L1 ++ r :: rest) s).rows.find? (availMatches r)).isSome :=
        keyPresent_bulkState _ s r (by simp)
      obtain ⟨a, ha⟩ := Option.isSome_iff_exists.1 hpres
      have hupsert : bulkUpsert (bulkState (L1 ++ r :: rest) s) r =
          { bulkState (L1 ++ r :: rest) s with
              rows := updateFirst (availMatches r) (applyBulkUpdate r)
                (bulkState (L1 ++ r :: rest) s).rows } := by
        unfold bulkUpsert
        rw [ha]
      have hstep : bulkState (r :: rest) (bulkState (L1 ++ r :: rest) s) =
          bulkState rest (bulkUpsert (bulkState (L1 ++ r :: rest) s) r) := by
        rw [bulkState, List.foldl_cons]; rfl
      rw [hstep, hupsert]
      by_cases hocc : ∃ r' ∈ rest, recKey r' = recKey r
      · rw [bulkState_payload_insensitive rest _ r (applyBulkUpdate r)
          (payloadOnly_applyBulkUpdate r) hocc]
        calc bulkState rest (bulkState (L1 ++ r :: rest) s)
            = bulkState rest (bulkState ((L1 ++ [r]) ++ rest) s) := by rw [← hassoc]
          _ = bulkState ((L1 ++ [r]) ++ rest) s := ih (L1 ++ [r]) s
          _ = bulkState (L1 ++ r :: rest) s := by rw [← hassoc]
      · push_neg at hocc
        have hsplit : bulkState (L1 ++ r :: rest) s =
            bulkState rest (bulkUpsert (bulkState L1 s) r) := by
          rw [bulkState, List.foldl_append, List.foldl_cons]; rfl
        obtain ⟨a0, ha0, hp, hav, hd⟩ := find?_bulkUpsert_self (bulkState L1 s) r
        have ha0' : (bulkState (L1 ++ r :: rest) s).rows.find? (availMatches r) = some a0 := by
          rw [hsplit]
          exact find?_bulkState_untouched rest _ r a0 ha0 hocc
        have hfix : applyBulkUpdate r a0 = a0 := by
          apply Availability.ext <;> simp [applyBulkUpdate, hp, hav, hd]
        rw [updateFirst_id_of_fixed ha0' hfix]
        calc bulkState rest (bulkState (L1 ++ r :: rest) s)
            = bulkState rest (bulkState ((L1 ++ [r]) ++ rest) s) := by rw [← hassoc]
          _ = bulkState ((L1 ++ [r]) ++ rest) s := ih (L1 ++ [r]) s
          _ = bulkState (L1 ++ r :: rest) s := by rw [← hassoc]

/-- `bulk_add_availabilities` run a second time on its own output: the state is
unchanged, nothing is counted as added, and every record is counted as
updated. -/
theorem bulk_add_availabilities_replay (rs : List AvailabilityRecord) (s : AvailStore) :
    bulk_add_availabilities rs (bulk_add_availabilities rs s).1 =
      ((bulk_add_availabilities rs s).1, ⟨0, rs.length, rs.length⟩) := by
  have hfst1 : (bulk_add_availabilities rs s).1 = bulkState rs s :=
    foldl_bulkAddStep_fst rs s _
  apply Prod.ext
  · rw [bulk_add_availabilities, foldl_bulkAddStep_fst, hfst1]
    exact bulkState_replay rs [] s
  · rw [bulk_add_availabilities, bulk_stats_all_present rs _ _
      (fun r hr => by rw [hfst1]; exact keyPresent_bulkState rs s r hr)]
    simp

end BulkReplay

/-- Persisted `Location` row (`app/models.py`), restricted to the fields the
reconciled core reads. -/
structure Location where
  id : Nat
  name : String
  slug : String
  provider : String
  tenant_id : String
  timezone : String
deriving DecidableEq, Repr

/-- Persisted `Court` row.  `indoor` and `double` are nullable boolean columns;
`none` models SQL NULL. -/
structure Court where
  id : Nat
  name : String
  resource_id : Option String
  location_id : Nat
  sport : Option String
  indoor : Option Bool
  double : Option Bool
deriving DecidableEq, Repr

/-- `InternalAvailabilityDTO` (`app/models.py`): the provider-independent raw
slot record, with `date` and `timeslot` still unparsed strings. -/
structure InternalAvailabilityDTO where
  provider : String
  court : String
  location : String
  date : String
  timeslot : String
  price : String
  available : Bool
deriving DecidableEq, Repr

/-- Canonical database state touched by the reconciler. -/
structure DB where
  locations : List Location
  courts : List Court
  availabilities : List Availability
  nextCourtId : Nat
  nextAvailId : Nat
deriving DecidableEq, Repr

/-- `str.split(sep)` for a one-character separator: empty parts are kept, a
trailing separator yields a trailing empty part. -/
def splitCharAux (sep : Char) : List Char → List Char → List (List Char)
  | [], acc => [acc.reverse]
  | c :: rest, acc =>
      if c = sep then acc.reverse :: splitCharAux sep rest []
      else splitCharAux sep rest (c :: acc)

/-- Split a character list at every occurrence of `sep`. -/
def splitChar (sep : Char) (s : List Char) : List (List Char) :=
  splitCharAux sep s []

/-- Numeric value of an all-digit character list. -/
def digitsToNat (cs : List Char) : Nat :=
  cs.foldl (fun n c => n * 10 + (c.toNat - 48)) 0

/-- Model of `datetime.strptime(s, "%H:%M").time()` on a time-of-day string:
one or two digits for the hour (0-23), one or two for the minute (0-59),
returned as minutes since midnight.  Malformed input is a `ValueError`. -/
def parseHMChars (cs : List Char) : Option Nat :=
  match splitChar ':' cs with
  | [h, m] =>
      if 1 ≤ h.length && h.length ≤ 2 && h.all Char.isDigit &&
          1 ≤ m.length && m.length ≤ 2 && m.all Char.isDigit then
        if digitsToNat h < 24 && digitsToNat m < 60 then
          some (digitsToNat h * 60 + digitsToNat m)
        else none
      else none
  | _ => none

/-- Model of `datetime.strptime(s, "%Y-%m-%d").date()`.  Day-in-month
validation beyond the 1..31 range is not modelled; no claim depends on it. -/
def parseDateStr (s : String) : Option PDate :=
  match splitChar '-' s.toList with
  | [y, m, d] =>
      if 1 ≤ y.length && y.length ≤ 4 && y.all Char.isDigit &&
          1 ≤ m.length && m.length ≤ 2 && m.all Char.isDigit &&
          1 ≤ d.length && d.length ≤ 2 && d.all Char.isDigit then
        if 1 ≤ digitsToNat m && digitsToNat m ≤ 12 &&
            1 ≤ digitsToNat d && digitsToNat d ≤ 31 then
          some ⟨digitsToNat y, digitsToNat m, digitsToNat d⟩
        else none
      else none
  | _ => none

/-- Model of `start_str, end_str = item.timeslot.split("-")` followed by two
`strptime` calls: exactly one dash, both parts valid times. -/
def parseTimeslot (s : String) : Option (Nat × Nat) :=
  match splitChar '-' s.toList with
  | [a, b] =>
      match parseHMChars a, parseHMChars b with
      | some st, some en => some (st, en)
      | _, _ => none
  | _ => none

/-- `(datetime.combine(today, end) - datetime.combine(today, start)).seconds
// 60` for minute-resolution times of day: the minute difference modulo one
day (a negative timedelta normalises to `days=-1` plus a positive seconds
part). -/
def timeslotDuration (st en : Nat) : Nat := (1440 + en - st) % 1440

/-- `session.query(Location).filter(Location.name == item.location).first()`. -/
def findLocation (db : DB) (name : String) : Option Location :=
  db.locations.find? (fun l => l.name == name)

/-- `session.query(Court).filter(Court.location_id == location.id, Court.name
== item.court).first()`. -/
def findCourtByName (db : DB) (locId : Nat) (name : String) : Option Court :=
  db.courts.find? (fun c => c.location_id == locId && c.name == name)

/-- Placeholder court created by `store_internal_availabilities` when the
UUID-named court is unknown; `indoor`/`double` take the column defaults
(`False`) at flush time. -/
def newCourt (id : Nat) (name : String) (locId : Nat) : Court :=
  ⟨id, name, none, locId, none, some false, some false⟩

/-- In-place revision performed by `store_internal_availabilities` when the
natural key matches: only price and availability are overwritten (duration is
left as stored). -/
def applyInternalUpdate (item : InternalAvailabilityDTO) (a : Availability) : Availability :=
  { a with price := item.price, available := item.available }

/-- Record assembled from one parsed DTO once its court is known. -/
def internalRecord (courtId : Nat) (d : PDate) (st en : Nat)
    (item : InternalAvailabilityDTO) : AvailabilityRecord :=
  ⟨courtId, d, st, en, timeslotDuration st en, item.price, item.available⟩

/-- Availability upsert of one `store_internal_availabilities` iteration
(`services/availability_service.py` lines 162-199): parse the timeslot and the
date, then update price/availability in place on a `(court_id, date,
start_time, end_time)` match or insert a new row. -/
def storeAvailability (db : DB) (court : Court) (item : InternalAvailabilityDTO) :
    Except String DB :=
  match parseTimeslot item.timeslot, parseDateStr item.date with
  | some (st, en), some d =>
      let r := internalRecord court.id d st en item
      match db.availabilities.find? (availMatches r) with
      | some _ =>
          Except.ok { db with availabilities := updateFirst (availMatches r) (applyInternalUpdate item) db.availabilities }
      | none =>
          Except.ok { db with
            availabilities := db.availabilities ++ [newAvail db.nextAvailId r],
            nextAvailId := db.nextAvailId + 1 }
  | _, _ => Except.error "ValueError"

/-- One iteration of the `store_internal_availabilities` loop (lines 131-199):
an unknown location name silently skips the item (`continue`), an unknown
court name creates a UUID-named placeholder court, then the availability is
upserted.  A parse error aborts the whole call (the surrounding transaction is
rolled back, so the caller's state is unchanged). -/
def storeInternalItem (db : DB) (item : InternalAvailabilityDTO) : Except String DB :=
  match findLocation db item.location with
  | none => Except.ok db
  | some location =>
      match findCourtByName db location.id item.court with
      | some court => storeAvailability db court item
      | none =>
          let court := newCourt db.nextCourtId item.court location.id
          storeAvailability
            { db with courts := db.courts ++ [court], nextCourtId := db.nextCourtId + 1 }
            court item

/-- `AvailabilityService.store_internal_availabilities`
(`services/availability_service.py` lines 119-201). -/
def store_internal_availabilities : List InternalAvailabilityDTO → DB → Except String DB
  | [], db => Except.ok db
  | item :: rest, db =>
      match storeInternalItem db item with
      | Except.ok db1 => store_internal_availabilities rest db1
      | Except.error e => Except.error e

/-- Resolution of a DTO against a state in which its court already exists:
the record that an iteration of `store_internal_availabilities` would upsert. -/
def resolveRec (db : DB) (item : InternalAvailabilityDTO) : Option AvailabilityRecord :=
  match findLocation db item.location with
  | none => none
  | some location =>
      match findCourtByName db location.id item.court with
      | none => none
      | some c =>
          match parseTimeslot item.timeslot, parseDateStr item.date with
          | some (st, en), some d => some (internalRecord c.id d st en item)
          | _, _ => none

section StoreReplay

/-- A function that rewrites only the price and availability of a row. -/
def PriceAvailOnly (f : Availability → Availability) : Prop :=
  PayloadOnly f ∧ ∀ a, (f a).duration = a.duration

theorem priceAvailOnly_applyInternalUpdate (item : InternalAvailabilityDTO) :
    PriceAvailOnly (applyInternalUpdate item) := by
  constructor
  · intro a; simp [applyInternalUpdate]
  · intro a; simp [applyInternalUpdate]

theorem availMatches_applyInternalUpdate (r : AvailabilityRecord)
    (item : InternalAvailabilityDTO) (a : Availability) :
    availMatches r (applyInternalUpdate item a) = availMatches r a :=
  availMatches_of_payloadOnly (priceAvailOnly_applyInternalUpdate item).1 r a

theorem keyPresent_updateFirst_payload {l : List Availability}
    {r₀ r : AvailabilityRecord} {f : Availability → Availability}
    (hf : PayloadOnly f)
    (hp : (l.find? (availMatches r₀)).isSome) :
    ((updateFirst (availMatches r) f l).find? (availMatches r₀)).isSome := by
  by_cases hk : recKey r = recKey r₀
  · rw [availMatches_key_congr hk,
      find?_updateFirst_self (fun a => availMatches_of_payloadOnly hf r₀ a)]
    simpa using hp
  · rw [find?_updateFirst_other
      (fun a ha => availMatches_key_ne (fun h => hk h.symm) a ha)
      (fun a => availMatches_of_payloadOnly hf r₀ a)]
    exact hp

theorem keyPresent_append {l t : List Availability} {r₀ : AvailabilityRecord}
    (hp : (l.find? (availMatches r₀)).isSome) :
    (((l ++ t).find? (availMatches r₀))).isSome := by
  obtain ⟨a, ha⟩ := Option.isSome_iff_exists.1 hp
  rw [find?_append_left ha]
  rfl

/-- A run over an appended list is the run of the first part followed by the
run of the second. -/
theorem store_internal_append (L1 L2 : List InternalAvailabilityDTO) :
    ∀ db, store_internal_availabilities (L1 ++ L2) db =
      match store_internal_availabilities L1 db with
      | Except.ok d => store_internal_availabilities L2 d
      | Except.error e => Except.error e := by
  induction L1 with
  | nil => intro db; rfl
  | cons item rest ih =>
      intro db
      show (match storeInternalItem db item with
        | Except.ok db1 => store_internal_availabilities (rest ++ L2) db1
        | Except.error e => Except.error e) = _
      cases h : storeInternalItem db item with
      | ok db1 =>
          simp only
          rw [ih db1]
          have : store_internal_availabilities (item :: rest) db =
              store_internal_availabilities rest db1 := by
            show (match storeInternalItem db item with
              | Except.ok d => store_internal_availabilities rest d
              | Except.error e => Except.error e) = _
            rw [h]
          rw [this]
      | error e =>
          simp only
          have : store_internal_availabilities (item :: rest) db = Except.error e := by
            show (match storeInternalItem db item with
              | Except.ok d => store_internal_availabilities rest d
              | Except.error e => Except.error e) = _
            rw [h]
          rw [this]

/-- State after an in-place price/availability revision of the row matching
`r`. -/
def internalUpdatedDB (db : DB) (r : AvailabilityRecord)
    (item : InternalAvailabilityDTO) : DB :=
  { db with availabilities := updateFirst (availMatches r) (applyInternalUpdate item) db.availabilities }

/-- State after inserting a fresh row for `r`. -/
def internalInsertedDB (db : DB) (r : AvailabilityRecord) : DB :=
  { db with
    availabilities := db.availabilities ++ [newAvail db.nextAvailId r],
    nextAvailId := db.nextAvailId + 1 }

theorem storeAvailability_shape {db : DB} {court : Court}
    {item : InternalAvailabilityDTO} {db' : DB}
    (h : storeAvailability db court item = Except.ok db') :
    ∃ st en d, parseTimeslot item.timeslot = some (st, en) ∧
      parseDateStr item.date = some d ∧
      ((∃ a, db.availabilities.find? (availMatches (internalRecord court.id d st en item)) = some a ∧
          db' = internalUpdatedDB db (internalRecord court.id d st en item) item) ∨
        (db.availabilities.find? (availMatches (internalRecord court.id d st en item)) = none ∧
          db' = internalInsertedDB db (internalRecord court.id d st en item))) := by
  unfold storeAvailability at h
  cases hts : parseTimeslot item.timeslot with
  | none => rw [hts] at h; cases hds : parseDateStr item.date <;> rw [hds] at h <;> cases h
  | some p =>
      cases hds : parseDateStr item.date with
      | none => rw [hts, hds] at h; cases h
      | some d =>
          obtain ⟨st, en⟩ := p
          rw [hts, hds] at h
          simp only at h
          refine ⟨st, en, d, rfl, rfl, ?_⟩
          cases hfind : db.availabilities.find?
              (availMatches (internalRecord court.id d st en item)) with
          | some a =>
              rw [hfind] at h
              simp only [Except.ok.injEq] at h
              exact Or.inl ⟨a, rfl, h.symm⟩
          | none =>
              rw [hfind] at h
              simp only [Except.ok.injEq] at h
              exact Or.inr ⟨rfl, h.symm⟩

theorem storeInternalItem_skip {db : DB} {item : InternalAvailabilityDTO}
    (h : findLocation db item.location = none) :
    storeInternalItem db item = Except.ok db := by
  unfold storeInternalItem
  rw [h]

theorem storeInternalItem_locations {db : DB} {item : InternalAvailabilityDTO} {db' : DB}
    (h : storeInternalItem db item = Except.ok db') :
    db'.locations = db.locations := by
  unfold storeInternalItem at h
  cases hloc : findLocation db item.location with
  | none => rw [hloc] at h; cases h; rfl
  | some loc =>
      rw [hloc] at h
      simp only at h
      cases hc : findCourtByName db loc.id item.court with
      | some c =>
          rw [hc] at h
          obtain ⟨st, en, d, _, _, hcase⟩ := storeAvailability_shape h
          rcases hcase with ⟨a, _, rfl⟩ | ⟨_, rfl⟩ <;> rfl
      | none =>
          rw [hc] at h
          obtain ⟨st, en, d, _, _, hcase⟩ := storeAvailability_shape h
          rcases hcase with ⟨a, _, rfl⟩ | ⟨_, rfl⟩ <;> rfl

theorem storeInternalItem_courts_grow {db : DB} {item : InternalAvailabilityDTO} {db' : DB}
    (h : storeInternalItem db item = Except.ok db') :
    ∃ t, db'.courts = db.courts ++ t := by
  unfold storeInternalItem at h
  cases hloc : findLocation db item.location with
  | none => rw [hloc] at h; cases h; exact ⟨[], by simp⟩
  | some loc =>
      rw [hloc] at h
      simp only at h
      cases hc : findCourtByName db loc.id item.court with
      | some c =>
          rw [hc] at h
          obtain ⟨st, en, d, _, _, hcase⟩ := storeAvailability_shape h
          rcases hcase with ⟨a, _, rfl⟩ | ⟨_, rfl⟩ <;>
            exact ⟨[], by simp [internalUpdatedDB, internalInsertedDB]⟩
      | none =>
          rw [hc] at h
          obtain ⟨st, en, d, _, _, hcase⟩ := storeAvailability_shape h
          rcases hcase with ⟨a, _, rfl⟩ | ⟨_, rfl⟩ <;>
            exact ⟨[newCourt db.nextCourtId item.court loc.id], rfl⟩

theorem storeInternalItem_presence {db : DB} {item : InternalAvailabilityDTO} {db' : DB}
    {r : AvailabilityRecord}
    (h : storeInternalItem db item = Except.ok db')
    (hp : (db.availabilities.find? (availMatches r)).isSome) :
    (db'.availabilities.find? (availMatches r)).isSome := by
  unfold storeInternalItem at h
  cases hloc : findLocation db item.location with
  | none => rw [hloc] at h; cases h; exact hp
  | some loc =>
      rw [hloc] at h
      simp only at h
      cases hc : findCourtByName db loc.id item.court with
      | some c =>
          rw [hc] at h
          obtain ⟨st, en, d, _, _, hcase⟩ := storeAvailability_shape h
          rcases hcase with ⟨a, _, rfl⟩ | ⟨_, rfl⟩
          · exact keyPresent_updateFirst_payload
              (priceAvailOnly_applyInternalUpdate item).1 hp
          · exact keyPresent_append hp
      | none =>
          rw [hc] at h
          obtain ⟨st, en, d, _, _, hcase⟩ := storeAvailability_shape h
          rcases hcase with ⟨a, _, rfl⟩ | ⟨_, rfl⟩
          · exact keyPresent_updateFirst_payload
              (priceAvailOnly_applyInternalUpdate item).1 hp
          · exact keyPresent_append hp

theorem store_internal_locations (L : List InternalAvailabilityDTO) :
    ∀ {db db' : DB}, store_internal_availabilities L db = Except.ok db' →
      db'.locations = db.locations := by
  induction L with
  | nil => intro db db' h; cases h; rfl
  | cons item rest ih =>
      intro db db' h
      unfold store_internal_availabilities at h
      cases hs : storeInternalItem db item with
      | ok db1 =>
          rw [hs] at h
          exact (ih h).trans (storeInternalItem_locations hs)
      | error e => rw [hs] at h; cases h

theorem store_internal_courts_grow (L : List InternalAvailabilityDTO) :
    ∀ {db db' : DB}, store_internal_availabilities L db = Except.ok db' →
      ∃ t, db'.courts = db.courts ++ t := by
  induction L with
  | nil => intro db db' h; cases h; exact ⟨[], by simp⟩
  | cons item rest ih =>
      intro db db' h
      unfold store_internal_availabilities at h
      cases hs : storeInternalItem db item with
      | ok db1 =>
          rw [hs] at h
          obtain ⟨t1, ht1⟩ := storeInternalItem_courts_grow hs
          obtain ⟨t2, ht2⟩ := ih h
          exact ⟨t1 ++ t2, by rw [ht2, ht1, List.append_assoc]⟩
      | error e => rw [hs] at h; cases h

theorem store_internal_presence (L : List InternalAvailabilityDTO) :
    ∀ {db db' : DB} {r : AvailabilityRecord},
      store_internal_availabilities L db = Except.ok db' →
      (db.availabilities.find? (availMatches r)).isSome →
      (db'.availabilities.find? (availMatches r)).isSome := by
  induction L with
  | nil => intro db db' r h hp; cases h; exact hp
  | cons item rest ih =>
      intro db db' r h hp
      unfold store_internal_availabilities at h
      cases hs : storeInternalItem db item with
      | ok db1 =>
          rw [hs] at h
          exact ih h (storeInternalItem_presence hs hp)
      | error e => rw [hs] at h; cases h

theorem findLocation_congr {db db' : DB} (h : db'.locations = db.locations)
    (name : String) : findLocation db' name = findLocation db name := by
  unfold findLocation
  rw [h]

theorem findCourtByName_stable {db db' : DB} {locId : Nat} {name : String} {c : Court}
    (hgrow : ∃ t, db'.courts = db.courts ++ t)
    (h : findCourtByName db locId name = some c) :
    findCourtByName db' locId name = some c := by
  obtain ⟨t, ht⟩ := hgrow
  unfold findCourtByName at *
  rw [ht]
  exact find?_append_left h

theorem resolveRec_stable {db db' : DB} {item : InternalAvailabilityDTO}
    {r : AvailabilityRecord}
    (hloc : db'.locations = db.locations)
    (hgrow : ∃ t, db'.courts = db.courts ++ t)
    (h : resolveRec db item = some r) :
    resolveRec db' item = some r := by
  unfold resolveRec at *
  rw [findLocation_congr hloc]
  cases hl : findLocation db item.location with
  | none => rw [hl] at h; cases h
  | some loc =>
      rw [hl] at h
      dsimp only at h ⊢
      cases hc : findCourtByName db loc.id item.court with
      | none => rw [hc] at h; cases h
      | some c =>
          rw [hc] at h
          rw [findCourtByName_stable hgrow hc]
          exact h

theorem findCourtByName_congr {db db' : DB} (h : db'.courts = db.courts)
    (locId : Nat) (name : String) :
    findCourtByName db' locId name = findCourtByName db locId name := by
  unfold findCourtByName
  rw [h]

theorem availMatches_newAvail_self (id : Nat) (r : AvailabilityRecord) :
    availMatches r (newAvail id r) = true := by
  simp [availMatches, newAvail]

theorem availMatches_newAvail_other {rx r : AvailabilityRecord} (id : Nat)
    (h : recKey rx ≠ recKey r) :
    availMatches rx (newAvail id r) = false := by
  cases hx : availMatches rx (newAvail id r)
  · rfl
  · have hthis : rowKey (newAvail id r) = recKey r := rfl
    have h1 : rowKey (newAvail id r) = recKey rx := (availMatches_iff rx _).1 hx
    have h2 : recKey r = recKey rx := by rw [← hthis]; exact h1
    exact absurd h2.symm h

theorem storeAvailability_resolved_props {db0 : DB} {court : Court}
    {item : InternalAvailabilityDTO} {db' : DB}
    (h : storeAvailability db0 court item = Except.ok db') :
    ∃ st en d, parseTimeslot item.timeslot = some (st, en) ∧
      parseDateStr item.date = some d ∧
      db'.locations = db0.locations ∧ db'.courts = db0.courts ∧
      (∃ a, db'.availabilities.find? (availMatches (internalRecord court.id d st en item)) = some a ∧
        a.price = item.price ∧ a.available = item.available) ∧
      (∀ rx : AvailabilityRecord, recKey rx ≠ recKey (internalRecord court.id d st en item) →
        db'.availabilities.find? (availMatches rx) = db0.availabilities.find? (availMatches rx)) := by
  obtain ⟨st, en, d, hts, hds, hcase⟩ := storeAvailability_shape h
  refine ⟨st, en, d, hts, hds, ?_⟩
  rcases hcase with ⟨a, hfind, rfl⟩ | ⟨hnone, rfl⟩
  · refine ⟨rfl, rfl, ⟨applyInternalUpdate item a, ?_, rfl, rfl⟩, ?_⟩
    · show (updateFirst _ _ db0.availabilities).find? _ = _
      rw [find?_updateFirst_self
        (fun x => availMatches_applyInternalUpdate _ item x), hfind]
      rfl
    · intro rx hrx
      show (updateFirst _ _ db0.availabilities).find? _ = _
      exact find?_updateFirst_other
        (fun x hx => availMatches_key_ne hrx x hx)
        (fun x => availMatches_applyInternalUpdate rx item x)
  · refine ⟨rfl, rfl, ⟨newAvail db0.nextAvailId (internalRecord court.id d st en item), ?_, rfl, rfl⟩, ?_⟩
    · show (db0.availabilities ++ [_]).find? _ = _
      rw [find?_append_none hnone,
        List.find?_cons_of_pos _ (availMatches_newAvail_self _ _)]
    · intro rx hrx
      show (db0.availabilities ++ [_]).find? _ = _
      cases hpre : db0.availabilities.find? (availMatches rx) with
      | some ax => exact find?_append_left hpre
      | none =>
          rw [find?_append_none hpre,
            List.find?_cons_of_neg _ (by simp [availMatches_newAvail_other _ hrx])]
          rfl

theorem storeInternalItem_resolvable {db : DB} {item : InternalAvailabilityDTO}
    {db' : DB} {loc : Location}
    (hloc : findLocation db item.location = some loc)
    (h : storeInternalItem db item = Except.ok db') :
    ∃ r, resolveRec db' item = some r ∧
      (∃ a, db'.availabilities.find? (availMatches r) = some a ∧
        a.price = item.price ∧ a.available = item.available) ∧
      (∀ rx : AvailabilityRecord, recKey rx ≠ recKey r →
        db'.availabilities.find? (availMatches rx) = db.availabilities.find? (availMatches rx)) := by
  unfold storeInternalItem at h
  rw [hloc] at h
  dsimp only at h
  cases hc : findCourtByName db loc.id item.court with
  | some c =>
      rw [hc] at h
      obtain ⟨st, en, d, hts, hds, hlocs, hcourts, hpay, hoth⟩ :=
        storeAvailability_resolved_props h
      refine ⟨internalRecord c.id d st en item, ?_, hpay, hoth⟩
      unfold resolveRec
      rw [findLocation_congr hlocs, hloc]
      dsimp only
      rw [findCourtByName_congr hcourts, hc]
      dsimp only
      rw [hts, hds]
  | none =>
      rw [hc] at h
      dsimp only at h
      obtain ⟨st, en, d, hts, hds, hlocs, hcourts, hpay, hoth⟩ :=
        storeAvailability_resolved_props h
      refine ⟨internalRecord (newCourt db.nextCourtId item.court loc.id).id d st en item,
        ?_, hpay, hoth⟩
      unfold resolveRec
      have hlocs' : db'.locations = db.locations := hlocs
      rw [findLocation_congr hlocs', hloc]
      dsimp only
      have hcourts' : db'.courts = db.courts ++ [newCourt db.nextCourtId item.court loc.id] :=
        hcourts
      have hfound : findCourtByName db' loc.id item.court =
          some (newCourt db.nextCourtId item.court loc.id) := by
        unfold findCourtByName at hc ⊢
        rw [hcourts', find?_append_none hc,
          List.find?_cons_of_pos _ (by simp [newCourt])]
      rw [hfound]
      dsimp only
      rw [hts, hds]

theorem resolveRec_some_inv {db : DB} {item : InternalAvailabilityDTO}
    {r : AvailabilityRecord} (h : resolveRec db item = some r) :
    ∃ loc c st en d, findLocation db item.location = some loc ∧
      findCourtByName db loc.id item.court = some c ∧
      parseTimeslot item.timeslot = some (st, en) ∧
      parseDateStr item.date = some d ∧
      r = internalRecord c.id d st en item := by
  unfold resolveRec at h
  cases hl : findLocation db item.location with
  | none => rw [hl] at h; cases h
  | some loc =>
      rw [hl] at h
      dsimp only at h
      cases hc : findCourtByName db loc.id item.court with
      | none => rw [hc] at h; cases h
      | some c =>
          rw [hc] at h
          dsimp only at h
          cases hts : parseTimeslot item.timeslot with
          | none => rw [hts] at h; cases hds : parseDateStr item.date <;> rw [hds] at h <;> cases h
          | some p =>
              cases hds : parseDateStr item.date with
              | none => rw [hts, hds] at h; cases h
              | some d =>
                  obtain ⟨st, en⟩ := p
                  rw [hts, hds] at h
                  dsimp only at h
                  exact ⟨loc, c, st, en, d, rfl, hc, rfl, rfl, (Option.some.inj h).symm⟩

/-- At a state where the item's court already exists and its natural key is
present, an iteration is exactly the in-place price/availability revision. -/
theorem storeInternalItem_at_resolved {db : DB} {item : InternalAvailabilityDTO}
    {r : AvailabilityRecord}
    (hres : resolveRec db item = some r)
    (hpres : (db.availabilities.find? (availMatches r)).isSome) :
    storeInternalItem db item = Except.ok (internalUpdatedDB db r item) := by
  obtain ⟨loc, c, st, en, d, hl, hc, hts, hds, hr⟩ := resolveRec_some_inv hres
  subst hr
  unfold storeInternalItem
  rw [hl]
  dsimp only
  rw [hc]
  unfold storeAvailability
  rw [hts, hds]
  dsimp only
  obtain ⟨a, ha⟩ := Option.isSome_iff_exists.1 hpres
  rw [ha]
  rfl

theorem store_internal_courts_present (M : List InternalAvailabilityDTO) :
    ∀ {dX dY : DB}, store_internal_availabilities M dX = Except.ok dY →
      ∀ item' ∈ M, ∀ loc', findLocation dY item'.location = some loc' →
        (findCourtByName dY loc'.id item'.court).isSome := by
  induction M with
  | nil => intro dX dY _ item' hmem; simp at hmem
  | cons item0 rest ih =>
      intro dX dY h item' hmem loc' hl'
      unfold store_internal_availabilities at h
      cases hB : storeInternalItem dX item0 with
      | error e => rw [hB] at h; cases h
      | ok dmid =>
          rw [hB] at h
          rcases List.mem_cons.1 hmem with rfl | hmem'
          · -- the head item: its court exists at the end of the run
            have hlocs : dY.locations = dX.locations :=
              ((store_internal_locations rest h).trans (storeInternalItem_locations hB))
            have hlX : findLocation dX item'.location = some loc' := by
              rw [← findLocation_congr hlocs]
              exact hl'
            obtain ⟨r0, hres, _, _⟩ := storeInternalItem_resolvable hlX hB
            have hres1 : resolveRec dY item' = some r0 :=
              resolveRec_stable (store_internal_locations rest h)
                (store_internal_courts_grow rest h) hres
            obtain ⟨loc1, c1, st, en, d, hl1, hc1, _, _, _⟩ := resolveRec_some_inv hres1
            have : loc1 = loc' := by
              rw [hl'] at hl1
              exact (Option.some.inj hl1).symm
            subst this
            rw [hc1]
            rfl
          · exact ih h item' hmem' loc' hl'

theorem store_internal_untouched (M : List InternalAvailabilityDTO) :
    ∀ {d d1 : DB} {r : AvailabilityRecord} {a : Availability},
      store_internal_availabilities M d = Except.ok d1 →
      d.availabilities.find? (availMatches r) = some a →
      (∀ item' ∈ M, ∀ r', resolveRec d1 item' = some r' → recKey r' ≠ recKey r) →
      d1.availabilities.find? (availMatches r) = some a := by
  induction M with
  | nil => intro d d1 r a h ha _; cases h; exact ha
  | cons item0 rest ih =>
      intro d d1 r a h ha hM
      unfold store_internal_availabilities at h
      cases hB : storeInternalItem d item0 with
      | error e => rw [hB] at h; cases h
      | ok dmid =>
          rw [hB] at h
          have hmid : dmid.availabilities.find? (availMatches r) = some a := by
            cases hloc : findLocation d item0.location with
            | none =>
                have hskip : storeInternalItem d item0 = Except.ok d :=
                  storeInternalItem_skip hloc
                rw [hskip] at hB
                cases hB
                exact ha
            | some loc =>
                obtain ⟨r0, hres, _, hother⟩ := storeInternalItem_resolvable hloc hB
                have hres1 : resolveRec d1 item0 = some r0 :=
                  resolveRec_stable (store_internal_locations rest h)
                    (store_internal_courts_grow rest h) hres
                have hne : recKey r0 ≠ recKey r :=
                  hM item0 (List.mem_cons_self item0 rest) r0 hres1
                rw [hother r (fun hh => hne hh.symm)]
                exact ha
          exact ih h hmid (fun item' hm r' hr' => hM item' (List.mem_cons_of_mem item0 hm) r' hr')

/-- State whose first row matching `r` has been rewritten by `f`. -/
def patchFirstAvail (d : DB) (r : AvailabilityRecord) (f : Availability → Availability) : DB :=
  { d with availabilities := updateFirst (availMatches r) f d.availabilities }

theorem store_internal_cons (item : InternalAvailabilityDTO)
    (rest : List InternalAvailabilityDTO) (db : DB) :
    store_internal_availabilities (item :: rest) db =
      match storeInternalItem db item with
      | Except.ok d1 => store_internal_availabilities rest d1
      | Except.error e => Except.error e := rfl

theorem resolveRec_congr {d1 d2 : DB} (hl : d1.locations = d2.locations)
    (hc : d1.courts = d2.courts) (item : InternalAvailabilityDTO) :
    resolveRec d1 item = resolveRec d2 item := by
  unfold resolveRec
  rw [findLocation_congr hl]
  cases hloc : findLocation d2 item.location with
  | none => rfl
  | some loc =>
      dsimp only
      rw [findCourtByName_congr hc]

theorem applyInternalUpdate_comp_priceAvailOnly (item : InternalAvailabilityDTO)
    {f : Availability → Availability} (hf : PriceAvailOnly f) (a : Availability) :
    applyInternalUpdate item (f a) = applyInternalUpdate item a := by
  obtain ⟨h1, h2, h3, h4, h5⟩ := hf.1 a
  have h6 := hf.2 a
  apply Availability.ext <;> simp [applyInternalUpdate, h1, h2, h3, h4, h5, h6]

theorem store_internal_payload_insensitive (L : List InternalAvailabilityDTO) :
    ∀ (d : DB) (r : AvailabilityRecord) (f : Availability → Availability),
      PriceAvailOnly f →
      (∃ item' ∈ L, ∃ r', resolveRec d item' = some r' ∧ recKey r' = recKey r) →
      (∀ item' ∈ L, ∀ loc', findLocation d item'.location = some loc' →
        (findCourtByName d loc'.id item'.court).isSome) →
      (d.availabilities.find? (availMatches r)).isSome →
      store_internal_availabilities L (patchFirstAvail d r f) =
        store_internal_availabilities L d := by
  induction L with
  | nil =>
      intro d r f _ hocc _ _
      obtain ⟨item', hmem, _⟩ := hocc
      simp at hmem
  | cons item0 rest ih =>
      intro d r f hf hocc hcourts hpres
      rw [store_internal_cons, store_internal_cons]
      cases hl : findLocation d item0.location with
      | none =>
          have hskip1 : storeInternalItem d item0 = Except.ok d := storeInternalItem_skip hl
          have hskip2 : storeInternalItem (patchFirstAvail d r f) item0 =
              Except.ok (patchFirstAvail d r f) :=
            storeInternalItem_skip (show findLocation (patchFirstAvail d r f) item0.location = none from hl)
          rw [hskip1, hskip2]
          dsimp only
          apply ih d r f hf ?_ (fun i hm => hcourts i (List.mem_cons_of_mem _ hm)) hpres
          obtain ⟨item', hmem, r', hres, hkey⟩ := hocc
          rcases List.mem_cons.1 hmem with rfl | hmem'
          · unfold resolveRec at hres
            rw [hl] at hres
            cases hres
          · exact ⟨item', hmem', r', hres, hkey⟩
      | some loc =>
          have hcs : (findCourtByName d loc.id item0.court).isSome :=
            hcourts item0 (List.mem_cons_self _ _) loc hl
          obtain ⟨c, hc⟩ := Option.isSome_iff_exists.1 hcs
          have hstep1 : storeInternalItem d item0 = storeAvailability d c item0 := by
            unfold storeInternalItem
            rw [hl]
            dsimp only
            rw [hc]
          have hstep2 : storeInternalItem (patchFirstAvail d r f) item0 =
              storeAvailability (patchFirstAvail d r f) c item0 := by
            unfold storeInternalItem
            rw [show findLocation (patchFirstAvail d r f) item0.location = some loc from hl]
            dsimp only
            rw [show findCourtByName (patchFirstAvail d r f) loc.id item0.court = some c from hc]
          rw [hstep1, hstep2]
          cases hts : parseTimeslot item0.timeslot with
          | none =>
              have e1 : storeAvailability d c item0 = Except.error "ValueError" := by
                simp [storeAvailability, hts]
              have e2 : storeAvailability (patchFirstAvail d r f) c item0 =
                  Except.error "ValueError" := by
                simp [storeAvailability, hts]
              rw [e1, e2]
          | some p =>
              obtain ⟨st, en⟩ := p
              cases hds : parseDateStr item0.date with
              | none =>
                  have e1 : storeAvailability d c item0 = Except.error "ValueError" := by
                    simp [storeAvailability, hts, hds]
                  have e2 : storeAvailability (patchFirstAvail d r f) c item0 =
                      Except.error "ValueError" := by
                    simp [storeAvailability, hts, hds]
                  rw [e1, e2]
              | some dd =>
                  have hres0 : resolveRec d item0 = some (internalRecord c.id dd st en item0) := by
                    unfold resolveRec
                    rw [hl]
                    dsimp only
                    rw [hc]
                    dsimp only
                    rw [hts, hds]
                  by_cases hkey : recKey (internalRecord c.id dd st en item0) = recKey r
                  · have hpres0 : (d.availabilities.find?
                        (availMatches (internalRecord c.id dd st en item0))).isSome := by
                      rw [availMatches_key_congr hkey]
                      exact hpres
                    obtain ⟨a0, ha0⟩ := Option.isSome_iff_exists.1 hpres0
                    have hs1 : storeAvailability d c item0 =
                        Except.ok (internalUpdatedDB d (internalRecord c.id dd st en item0) item0) := by
                      unfold storeAvailability
                      rw [hts, hds]
                      dsimp only
                      rw [ha0]
                      rfl
                    have hpres1 : ((patchFirstAvail d r f).availabilities.find?
                        (availMatches (internalRecord c.id dd st en item0))).isSome :=
                      keyPresent_updateFirst_payload hf.1 hpres0
                    obtain ⟨a1, ha1⟩ := Option.isSome_iff_exists.1 hpres1
                    have hs2 : storeAvailability (patchFirstAvail d r f) c item0 =
                        Except.ok (internalUpdatedDB (patchFirstAvail d r f)
                          (internalRecord c.id dd st en item0) item0) := by
                      unfold storeAvailability
                      rw [hts, hds]
                      dsimp only
                      rw [ha1]
                      rfl
                    rw [hs1, hs2]
                    dsimp only
                    have havails : updateFirst (availMatches (internalRecord c.id dd st en item0))
                          (applyInternalUpdate item0) (updateFirst (availMatches r) f d.availabilities) =
                        updateFirst (availMatches (internalRecord c.id dd st en item0))
                          (applyInternalUpdate item0) d.availabilities := by
                      rw [availMatches_key_congr hkey,
                        updateFirst_collapse (fun a => availMatches_of_payloadOnly hf.1 r a),
                        updateFirst_congr
                          (fun a _ => applyInternalUpdate_comp_priceAvailOnly item0 hf a)]
                    have hstates : internalUpdatedDB (patchFirstAvail d r f)
                          (internalRecord c.id dd st en item0) item0 =
                        internalUpdatedDB d (internalRecord c.id dd st en item0) item0 := by
                      unfold internalUpdatedDB patchFirstAvail
                      rw [havails]
                    rw [hstates]
                  · have hp0 : ((patchFirstAvail d r f).availabilities.find?
                        (availMatches (internalRecord c.id dd st en item0))) =
                        d.availabilities.find? (availMatches (internalRecord c.id dd st en item0)) := by
                      show (updateFirst (availMatches r) f d.availabilities).find? _ = _
                      exact find?_updateFirst_other
                        (fun x hx => availMatches_key_ne hkey x hx)
                        (fun x => availMatches_of_payloadOnly hf.1 _ x)
                    cases hf0 : d.availabilities.find?
                        (availMatches (internalRecord c.id dd st en item0)) with
                    | some a0 =>
                        have hs1 : storeAvailability d c item0 =
                            Except.ok (internalUpdatedDB d (internalRecord c.id dd st en item0) item0) := by
                          unfold storeAvailability
                          rw [hts, hds]
                          dsimp only
                          rw [hf0]
                          rfl
                        have hs2 : storeAvailability (patchFirstAvail d r f) c item0 =
                            Except.ok (internalUpdatedDB (patchFirstAvail d r f)
                              (internalRecord c.id dd st en item0) item0) := by
                          unfold storeAvailability
                          rw [hts, hds]
                          dsimp only
                          rw [hp0.trans hf0]
                          rfl
                        rw [hs1, hs2]
                        dsimp only
                        have hsw : internalUpdatedDB (patchFirstAvail d r f)
                              (internalRecord c.id dd st en item0) item0 =
                            patchFirstAvail (internalUpdatedDB d
                              (internalRecord c.id dd st en item0) item0) r f := by
                          unfold internalUpdatedDB patchFirstAvail
                          rw [updateFirst_comm
                            (fun a ha => availMatches_key_ne (fun hh => hkey hh.symm) a ha)
                            (fun a => availMatches_applyInternalUpdate r item0 a)
                            (fun a => availMatches_of_payloadOnly hf.1 _ a)]
                        rw [hsw]
                        apply ih _ r f hf ?_ ?_ ?_
                        · obtain ⟨item', hmem, r', hres, hkeyx⟩ := hocc
                          rcases List.mem_cons.1 hmem with rfl | hmem'
                          · rw [hres0] at hres
                            have := Option.some.inj hres
                            exact absurd (this ▸ hkeyx) hkey
                          · exact ⟨item', hmem', r', (resolveRec_congr rfl rfl item').trans hres, hkeyx⟩
                        · intro i hm loc' hlx
                          exact hcourts i (List.mem_cons_of_mem _ hm) loc' hlx
                        · exact keyPresent_updateFirst_payload
                            (priceAvailOnly_applyInternalUpdate item0).1 hpres
                    | none =>
                        have hs1 : storeAvailability d c item0 =
                            Except.ok (internalInsertedDB d (internalRecord c.id dd st en item0)) := by
                          unfold storeAvailability
                          rw [hts, hds]
                          dsimp only
                          rw [hf0]
                          rfl
                        have hs2 : storeAvailability (patchFirstAvail d r f) c item0 =
                            Except.ok (internalInsertedDB (patchFirstAvail d r f)
                              (internalRecord c.id dd st en item0)) := by
                          unfold storeAvailability
                          rw [hts, hds]
                          dsimp only
                          rw [hp0.trans hf0]
                          rfl
                        rw [hs1, hs2]
                        dsimp only
                        have hsw : internalInsertedDB (patchFirstAvail d r f)
                              (internalRecord c.id dd st en item0) =
                            patchFirstAvail (internalInsertedDB d
                              (internalRecord c.id dd st en item0)) r f := by
                          unfold internalInsertedDB patchFirstAvail
                          dsimp only
                          rw [updateFirst_append_left hpres]
                        rw [hsw]
                        apply ih _ r f hf ?_ ?_ ?_
                        · obtain ⟨item', hmem, r', hres, hkeyx⟩ := hocc
                          rcases List.mem_cons.1 hmem with rfl | hmem'
                          · rw [hres0] at hres
                            have := Option.some.inj hres
                            exact absurd (this ▸ hkeyx) hkey
                          · exact ⟨item', hmem', r', (resolveRec_congr rfl rfl item').trans hres, hkeyx⟩
                        · intro i hm loc' hlx
                          exact hcourts i (List.mem_cons_of_mem _ hm) loc' hlx
                        · exact keyPresent_append hpres

/-- Replaying any suffix of an already-stored DTO list on the final state is a
no-op: the state reached by `store_internal_availabilities` over `L1 ++ L2` is
a fixpoint for a second pass over `L2`. -/
theorem store_internal_replay_suffix (L2 : List InternalAvailabilityDTO) :
    ∀ (L1 : List InternalAvailabilityDTO) (db db1 : DB),
      store_internal_availabilities (L1 ++ L2) db = Except.ok db1 →
      store_internal_availabilities L2 db1 = Except.ok db1 := by
  induction L2 with
  | nil => intro L1 db db1 _; rfl
  | cons item rest ih =>
      intro L1 db db1 h0
      have h := h0
      rw [store_internal_append] at h
      cases hA : store_internal_availabilities L1 db with
      | error e => rw [hA] at h; cases h
      | ok dA =>
          rw [hA] at h
          dsimp only at h
          rw [store_internal_cons] at h
          cases hB : storeInternalItem dA item with
          | error e => rw [hB] at h; cases h
          | ok dB =>
              rw [hB] at h
              dsimp only at h
              have hreassoc : store_internal_availabilities ((L1 ++ [item]) ++ rest) db =
                  Except.ok db1 := by
                rw [List.append_assoc]
                exact h0
              have hrest_run := ih (L1 ++ [item]) db db1 hreassoc
              rw [store_internal_cons]
              cases hloc : findLocation dA item.location with
              | none =>
                  have hdB : dB = dA := by
                    have hskip : storeInternalItem dA item = Except.ok dA :=
                      storeInternalItem_skip hloc
                    rw [hskip] at hB
                    exact (Except.ok.inj hB).symm
                  subst hdB
                  have hlocs : db1.locations = dB.locations :=
                    store_internal_locations rest h
                  have hl1 : findLocation db1 item.location = none := by
                    rw [findLocation_congr hlocs]
                    exact hloc
                  rw [storeInternalItem_skip hl1]
                  exact hrest_run
              | some loc =>
                  obtain ⟨r0, hres, ⟨a0, ha0, hp, hav⟩, _⟩ :=
                    storeInternalItem_resolvable hloc hB
                  have hlocs := store_internal_locations rest h
                  have hgrow := store_internal_courts_grow rest h
                  have hres1 : resolveRec db1 item = some r0 :=
                    resolveRec_stable hlocs hgrow hres
                  have hpres1 : (db1.availabilities.find? (availMatches r0)).isSome :=
                    store_internal_presence rest h (by rw [ha0]; rfl)
                  have hstep1 : storeInternalItem db1 item =
                      Except.ok (internalUpdatedDB db1 r0 item) :=
                    storeInternalItem_at_resolved hres1 hpres1
                  rw [hstep1]
                  dsimp only
                  by_cases hocc : ∃ item' ∈ rest, ∃ r',
                      resolveRec db1 item' = some r' ∧ recKey r' = recKey r0
                  · have hcp := store_internal_courts_present rest h
                    have hins := store_internal_payload_insensitive rest db1 r0
                      (applyInternalUpdate item) (priceAvailOnly_applyInternalUpdate item)
                      hocc hcp hpres1
                    calc store_internal_availabilities rest (internalUpdatedDB db1 r0 item)
                        = store_internal_availabilities rest
                            (patchFirstAvail db1 r0 (applyInternalUpdate item)) := rfl
                      _ = store_internal_availabilities rest db1 := hins
                      _ = Except.ok db1 := hrest_run
                  · push_neg at hocc
                    have huntouched : db1.availabilities.find? (availMatches r0) = some a0 :=
                      store_internal_untouched rest h ha0 hocc
                    have hfix : applyInternalUpdate item a0 = a0 := by
                      apply Availability.ext <;> simp [applyInternalUpdate, hp, hav]
                    have hupd : internalUpdatedDB db1 r0 item = db1 := by
                      unfold internalUpdatedDB
                      rw [updateFirst_id_of_fixed huntouched hfix]
                    rw [hupd]
                    exact hrest_run

/-- A successful `store_internal_availabilities` run is idempotent: a second
call with the identical list leaves the canonical state untouched. -/
theorem store_internal_availabilities_replay {items : List InternalAvailabilityDTO}
    {db db1 : DB}
    (h : store_internal_availabilities items db = Except.ok db1) :
    store_internal_availabilities items db1 = Except.ok db1 :=
  store_internal_replay_suffix items [] db db1 (by simpa using h)

end StoreReplay

/-- Record list used to instantiate the idempotent-reconciliation theorem. -/
def c2Records : List AvailabilityRecord :=
  [⟨7, ⟨2025, 11, 20⟩, 1080, 1140, 60, "25 EUR", true⟩]

/-- DTO list used to instantiate the idempotent-reconciliation theorem. -/
def c2Items : List InternalAvailabilityDTO :=
  [⟨"Playtomic", "b1af00be", "Club A", "2025-11-20", "18:00-19:00", "25 EUR", true⟩]

/-- Initial state used to instantiate the idempotent-reconciliation theorem. -/
def c2Db : DB :=
  ⟨[⟨1, "Club A", "club-a", "Playtomic", "t1", "Europe/Amsterdam"⟩], [], [], 100, 500⟩

/-- State after the first `store_internal_availabilities` pass over `c2Items`. -/
def c2Db1 : DB :=
  ⟨[⟨1, "Club A", "club-a", "Playtomic", "t1", "Europe/Amsterdam"⟩],
    [⟨100, "b1af00be", none, 1, none, some false, some false⟩],
    [⟨500, 100, ⟨2025, 11, 20⟩, 1080, 1140, 60, "25 EUR", true⟩], 101, 501⟩

/-- C2: idempotent reconciliation.  Feeding `bulk_add_availabilities` its own
output a second time with the identical record list yields `added = 0`, counts
every record as updated, and leaves the availability table identical; and a
state produced by a successful `store_internal_availabilities` run is a
fixpoint of a second run over the identical DTO list. -/
theorem c2_idempotent_reconciliation
    (rs : List AvailabilityRecord) (s : AvailStore)
    (items : List InternalAvailabilityDTO) (db db1 : DB)
    (h : store_internal_availabilities items db = Except.ok db1) :
    bulk_add_availabilities rs (bulk_add_availabilities rs s).1 =
      ((bulk_add_availabilities rs s).1, ⟨0, rs.length, rs.length⟩) ∧
    store_internal_availabilities items db1 = Except.ok db1 :=
  ⟨bulk_add_availabilities_replay rs s, store_internal_availabilities_replay h⟩

/-- C2 witness: the theorem applied to a concrete record list, DTO list and
store. -/
theorem c2_idempotent_reconciliation_witness :
    bulk_add_availabilities c2Records (bulk_add_availabilities c2Records ⟨[], 0⟩).1 =
      ((bulk_add_availabilities c2Records ⟨[], 0⟩).1, ⟨0, 1, 1⟩) ∧
    store_internal_availabilities c2Items c2Db1 = Except.ok c2Db1 :=
  c2_idempotent_reconciliation c2Records ⟨[], 0⟩ c2Items c2Db c2Db1 (by rfl)

section FreshnessCache

/-- Persisted `SearchRequest` row (`app/models.py`), restricted to the fields
the freshness cache reads and writes; the echoed search-criteria columns,
which no core code path reads back, are omitted.  `performed_at` is a UTC
timestamp in seconds. -/
structure SearchRequest where
  search_hash : String
  live_search : Bool
  performed_at : Int
  slots_found : Nat
deriving DecidableEq, Repr

/-- `SearchService.get_recent_live_search` (`services/search_service.py`
lines 106-131): the most recent live search with the given hash whose
`performed_at` is at least `now - max_age_minutes` (in seconds); `>=` on the
cutoff, so an entry exactly `max_age_minutes` old still qualifies. -/
def get_recent_live_search (rows : List SearchRequest) (now : Int)
    (search_hash : String) (max_age_minutes : Int) : Option SearchRequest :=
  let cutoff_time := now - max_age_minutes * 60
  (orderBy (fun a b => decide (b.performed_at ≤ a.performed_at))
    (rows.filter (fun sr => sr.search_hash == search_hash && sr.live_search &&
      decide (sr.performed_at ≥ cutoff_time)))).head?

/-- Fetch decision of `run_search_task` (`routes/tasks.py` lines 59-67): a
location needs a live fetch exactly when the caller forces one or no fresh
cached live search exists. -/
def shouldFetchLive (rows : List SearchRequest) (now : Int) (search_hash : String)
    (max_age_minutes : Int) (force_live : Bool) : Bool :=
  force_live || (get_recent_live_search rows now search_hash max_age_minutes).isNone

end FreshnessCache

section SearchHash

/-- `str(n)` zero-padded to two digits, as `date.__str__` renders months and
days. -/
def pad2 (n : Nat) : String := if n < 10 then "0" ++ toString n else toString n

/-- `str(n)` zero-padded to four digits, as `date.__str__` renders years. -/
def pad4 (n : Nat) : String :=
  if n < 10 then "000" ++ toString n
  else if n < 100 then "00" ++ toString n
  else if n < 1000 then "0" ++ toString n
  else toString n

/-- `str(date)`: ISO `YYYY-MM-DD`. -/
def dateStr (d : PDate) : String :=
  pad4 d.year ++ "-" ++ pad2 d.month ++ "-" ++ pad2 d.day

/-- `json.dumps` rendering of a list of ints (default separators). -/
def locationIdsJson (ids : List Nat) : String :=
  "[" ++ String.intercalate ", " (ids.map toString) ++ "]"

/-- `AvailabilityService.generate_search_hash` (`app/services.py` lines
450-465): MD5 of a JSON dump holding only the date and the sorted location
ids; the time window, duration and category filters are deliberately ignored.
The MD5 primitive (`hashlib.md5(...).hexdigest()`) is Python standard-library
code outside this repository and is taken as a function parameter. -/
def generate_search_hash (md5hex : String → String) (date : PDate)
    (start_time end_time : Nat) (duration_minutes : Nat)
    (court_type court_config : String) (location_ids : List Nat) : String :=
  let sorted_location_ids := orderBy (fun a b => decide (a ≤ b)) location_ids
  let search_string := "\x7b\"date\": \"" ++ dateStr date ++
    "\", \"location_ids\": " ++ locationIdsJson sorted_location_ids ++ "\x7d"
  md5hex search_string

/-- `SearchService.generate_search_hash` (`services/search_service.py` lines
133-157): the per-location variant keyed by date and a single location id. -/
def searchServiceHash (md5hex : String → String) (date : PDate)
    (location_id : Nat) : String :=
  md5hex ("\x7b\"date\": \"" ++ dateStr date ++ "\", \"location_id\": " ++
    toString location_id ++ "\x7d")

end SearchHash

/-- C4 counterexample: with a single cache entry for the queried hash that is
exactly `max_age_minutes` old (entry written at t = 0, now = 900 s = 15 min,
max age 15 min), the fetch decision is `false` — the entry still counts as
fresh and the fetch is skipped — whereas the claim states it must be `true`
(stale, re-fetch). -/
theorem c4_cache_boundary_counterexample :
    (900 : Int) - (⟨"h", true, 0, 3⟩ : SearchRequest).performed_at = 15 * 60 ∧
    shouldFetchLive [⟨"h", true, 0, 3⟩] 900 "h" 15 false = false := by
  refine ⟨by decide, ?_⟩
  norm_num [shouldFetchLive, get_recent_live_search, List.filter_cons]

/-- C4 amended: for a store holding one live entry for the queried hash, the
fetch decision (without forcing) is `true` iff the entry is strictly older
than `max_age_minutes`; an entry exactly at the boundary — and a fortiori one
second younger — is treated as fresh and the fetch is skipped. -/
theorem c4_cache_boundary_amended (sr : SearchRequest) (now max_age_minutes : Int)
    (hlive : sr.live_search = true) :
    shouldFetchLive [sr] now sr.search_hash max_age_minutes false = true ↔
      now - sr.performed_at > max_age_minutes * 60 := by
  by_cases hc : now ≤ sr.performed_at + max_age_minutes * 60
  · have hval : shouldFetchLive [sr] now sr.search_hash max_age_minutes false = false := by
      simp [shouldFetchLive, get_recent_live_search, List.filter_cons, hlive, hc]
    rw [hval]
    constructor
    · intro hx; cases hx
    · intro hx; omega
  · have hval : shouldFetchLive [sr] now sr.search_hash max_age_minutes false = true := by
      simp [shouldFetchLive, get_recent_live_search, List.filter_cons, hlive, hc]
    rw [hval]
    constructor
    · intro _; omega
    · intro _; rfl

/-- C4 amended claim witness: a live entry written at t = 0 queried at
t = 1000 s with a 15-minute maximum age (boundary at 900 s) is strictly stale,
so the fetch decision is `true`. -/
theorem c4_cache_boundary_amended_witness :
    shouldFetchLive [⟨"h", true, 0, 3⟩] 1000 "h" 15 false = true ↔
      (1000 : Int) - (0 : Int) > 15 * 60 :=
  c4_cache_boundary_amended ⟨"h", true, 0, 3⟩ 1000 15 rfl

/-- C8: cache-key noninterference.  Two search-parameter tuples agreeing on
the date and the location-id list produce the same `generate_search_hash`
value no matter how their time windows, durations, court types or court
configurations differ. -/
theorem c8_cache_key_noninterference (md5hex : String → String) (date : PDate)
    (start_time1 end_time1 duration1 : Nat) (court_type1 court_config1 : String)
    (start_time2 end_time2 duration2 : Nat) (court_type2 court_config2 : String)
    (location_ids : List Nat) :
    generate_search_hash md5hex date start_time1 end_time1 duration1
        court_type1 court_config1 location_ids =
      generate_search_hash md5hex date start_time2 end_time2 duration2
        court_type2 court_config2 location_ids := rfl

section TaskService

/-- Result row compiled by the task orchestrator: one availability joined
with its court and location. -/
abbrev ResultRow := Availability × Court × Location

/-- Persisted `SearchTask` row (`app/models.py` / `services/task_service.py`).
Timestamps are UTC seconds; the grouped result payload is modelled as the
ordered list of joined rows the compiling query returns. -/
structure SearchTask where
  task_id : String
  user_id : String
  status : String
  progress : Nat
  current_step : String
  total_locations : Nat
  processed_locations : Nat
  error_message : Option String
  results : Option (List ResultRow)
  started_at : Option Int
  completed_at : Option Int
  updated_at : Option Int
deriving DecidableEq, Repr

/-- `TaskService.get_task`. -/
def get_task (ts : List SearchTask) (task_id : String) : Option SearchTask :=
  ts.find? (fun t => t.task_id == task_id)

/-- `TaskService.update_task_progress` (`services/task_service.py` lines
83-116): clamp the percentage, set the step, optionally correct the counters.
No status check is performed. -/
def update_task_progress (ts : List SearchTask) (task_id : String)
    (progress : Nat) (current_step : String) (processed_locations : Option Nat)
    (total_locations : Option Nat) (now : Int) : List SearchTask :=
  updateFirst (fun t => t.task_id == task_id) (fun t =>
    { t with
      progress := min (max progress 0) 100
      current_step := current_step
      processed_locations := processed_locations.getD t.processed_locations
      total_locations := total_locations.getD t.total_locations
      updated_at := some now }) ts

/-- `TaskService.start_task` (lines 118-138): unconditionally sets the status
to `running`. -/
def start_task (ts : List SearchTask) (task_id : String) (now : Int) :
    List SearchTask :=
  updateFirst (fun t => t.task_id == task_id) (fun t =>
    { t with
      status := "running"
      started_at := some now
      current_step := "Starting search..."
      updated_at := some now }) ts

/-- `TaskService.complete_task` (lines 140-163): unconditionally sets the
status to `completed` — it does not check the current status first. -/
def complete_task (ts : List SearchTask) (task_id : String)
    (results : List ResultRow) (now : Int) : List SearchTask :=
  updateFirst (fun t => t.task_id == task_id) (fun t =>
    { t with
      status := "completed"
      progress := 100
      current_step := "Search completed"
      results := some results
      completed_at := some now
      updated_at := some now }) ts

/-- `TaskService.fail_task` (lines 165-186): unconditionally sets the status
to `failed`. -/
def fail_task (ts : List SearchTask) (task_id : String) (error_message : String)
    (now : Int) : List SearchTask :=
  updateFirst (fun t => t.task_id == task_id) (fun t =>
    { t with
      status := "failed"
      error_message := some error_message
      completed_at := some now
      updated_at := some now }) ts

/-- `TaskService.cancel_task` (lines 188-209): mutates the task only when its
status is `pending` or `running`. -/
def cancel_task (ts : List SearchTask) (task_id : String) (now : Int) :
    List SearchTask :=
  updateFirst (fun t => t.task_id == task_id) (fun t =>
    if t.status == "pending" || t.status == "running" then
      { t with
        status := "cancelled"
        current_step := "Search cancelled"
        completed_at := some now
        updated_at := some now }
    else t) ts

end TaskService

section Matcher

/-- Category-filter construction of `run_search_task` (`routes/tasks.py`
lines 162-170).  The `indoor` and `double` branches append genuine column
predicates.  The `outdoor` and `single` branches evaluate Python `not` on a
SQLAlchemy column object (`not Court.indoor`, `not Court.double`), which is
not a row predicate: taking the truth value of a clause raises `TypeError`,
so those filter values make the query construction fail instead of filtering
rows. -/
def categoryFilter (court_type court_config : String) :
    Except String (Court → Bool) :=
  if court_type = "outdoor" then
    Except.error "TypeError: Boolean value of this clause is not defined"
  else if court_config = "single" then
    Except.error "TypeError: Boolean value of this clause is not defined"
  else
    Except.ok (fun c =>
      (if court_type = "indoor" then c.indoor == some true else true) &&
      (if court_config = "double" then c.double == some true else true))

/-- Inner joins `Availability × Court × Location` on `court_id` and
`location_id` (`routes/tasks.py` lines 172-179). -/
def joinedRows (db : DB) : List ResultRow :=
  db.availabilities.flatMap (fun a =>
    db.courts.flatMap (fun c =>
      if a.court_id == c.id then
        db.locations.filterMap (fun l =>
          if c.location_id == l.id then some (a, c, l) else none)
      else []))

/-- Row filter of the result-compiling query of `run_search_task` (lines
152-160): date, a start-time-only window, duration, availability and the
location-id set; no check that the slot's end fits inside the window. -/
def searchTaskRowFilter (search_date : PDate) (start_time end_time : Nat)
    (duration_minutes : Nat) (location_ids : List Nat) (x : ResultRow) : Bool :=
  x.1.date == search_date && decide (start_time ≤ x.1.start_time) &&
    decide (x.1.start_time ≤ end_time) && x.1.duration == duration_minutes &&
    x.1.available && location_ids.contains x.2.1.location_id

/-- Result-compiling query of `run_search_task` (lines 152-181): joined rows
passing the base filters and the category filters, ordered by start time. -/
def searchTaskQuery (db : DB) (search_date : PDate) (start_time end_time : Nat)
    (duration_minutes : Nat) (court_type court_config : String)
    (location_ids : List Nat) : Except String (List ResultRow) :=
  match categoryFilter court_type court_config with
  | Except.error e => Except.error e
  | Except.ok catf =>
      Except.ok (orderBy (fun x y => decide (x.1.start_time ≤ y.1.start_time))
        ((joinedRows db).filter (fun x =>
          searchTaskRowFilter search_date start_time end_time duration_minutes
            location_ids x && catf x.2.1)))

/-- Result dictionary of `AvailabilityService.get_available_courts_in_time_range`. -/
structure CourtDict where
  court_name : String
  location : String
  start_time : Nat
  end_time : Nat
  price : String
  indoor : Option Bool
deriving DecidableEq, Repr

/-- `AvailabilityService.get_available_courts_in_time_range`
(`services/availability_service.py` lines 203-271): the SQL filter admits any
slot whose start time lies in the window, but the Python loop afterwards
recomputes the slot end (`start + duration`) and drops rows whose end exceeds
`end_time_range`. -/
def get_available_courts_in_time_range (db : DB) (date : PDate)
    (start_time_range end_time_range : Nat) (duration : Nat)
    (indoor : Option Bool) : List CourtDict :=
  let availabilities := db.availabilities.filter (fun a =>
    a.date == date && a.available && a.duration == duration &&
    decide (start_time_range ≤ a.start_time) && decide (a.start_time ≤ end_time_range))
  let availabilities := match indoor with
    | none => availabilities
    | some b => availabilities.filter (fun a =>
        db.courts.any (fun c => c.id == a.court_id && c.indoor == some b))
  availabilities.filterMap (fun avail =>
    let slot_end_time := (avail.start_time + duration) % 1440
    if slot_end_time ≤ end_time_range then
      match db.courts.find? (fun c => c.id == avail.court_id) with
      | some court =>
          some ⟨court.name,
            (match db.locations.find? (fun l => l.id == court.location_id) with
              | some l => l.name
              | none => "Unknown"),
            avail.start_time, avail.end_time, avail.price, court.indoor⟩
      | none => none
    else none)

end Matcher

section SearchOrderService

/-- Persisted `SearchOrder` row (`app/models.py`), restricted to the fields
read by the matcher, the notifier and the scheduler. -/
structure SearchOrder where
  id : Nat
  user_id : Option String
  location_ids : List Nat
  date : PDate
  start_time : Nat
  end_time : Nat
  duration_minutes : Nat
  court_type : String
  court_config : String
  is_active : Bool
  last_check_at : Option Int
deriving DecidableEq, Repr

/-- Persisted `SearchOrderNotification` row: one notification-tracking record
per `(search_order_id, availability_id)` pair. -/
structure SearchOrderNotification where
  id : Nat
  search_order_id : Nat
  court_id : Nat
  availability_id : Nat
  notified : Bool
deriving DecidableEq, Repr

/-- Candidate dictionary built by `get_notification_candidates`
(`services/search_order_service.py` lines 283-294). -/
structure NotificationCandidate where
  availability_id : Nat
  court_id : Nat
  court_name : String
  location : String
  start_time : Nat
  end_time : Nat
  price : String
  indoor : Option Bool
deriving DecidableEq, Repr

/-- Dedup test of `get_notification_candidates` (lines 271-280): an existing
notification record for the same search order and availability. -/
def notifKey (soId aid : Nat) (n : SearchOrderNotification) : Bool :=
  n.search_order_id == soId && n.availability_id == aid

/-- Row filter of the candidate query (lines 243-253): date, availability,
duration, a start-time window, and the constant slot-end bound
`slot_end_time <= end_time` computed from the order itself, conjoined with
the category predicate. -/
def soRowFilter (so : SearchOrder) (catf : Court → Bool) (x : ResultRow) : Bool :=
  x.1.date == so.date && x.1.available && x.1.duration == so.duration_minutes &&
    decide (so.start_time ≤ x.1.start_time) && decide (x.1.start_time ≤ so.end_time) &&
    decide ((so.start_time + so.duration_minutes) % 1440 ≤ so.end_time) && catf x.2.1

/-- Candidate dictionary assembled from one joined row (lines 283-294). -/
def candidateOf (x : ResultRow) : NotificationCandidate :=
  ⟨x.1.id, x.2.1.id, x.2.1.name, x.2.2.name, x.1.start_time, x.1.end_time,
    x.1.price, x.2.1.indoor⟩

/-- `SearchOrderService.get_notification_candidates`
(`services/search_order_service.py` lines 217-296): matched rows of the
order's query with the already-notified `(search_order_id, availability_id)`
pairs filtered out.  The `outdoor`/`single` category branches evaluate Python
`not` on a column object and raise `TypeError` while the query is being
built. -/
def get_notification_candidates (db : DB) (notifs : List SearchOrderNotification)
    (orders : List SearchOrder) (search_order_id : Nat) :
    Except String (List NotificationCandidate) :=
  match orders.find? (fun o => o.id == search_order_id) with
  | none => Except.ok []
  | some so =>
      match categoryFilter so.court_type so.court_config with
      | Except.error e => Except.error e
      | Except.ok catf =>
          Except.ok (((joinedRows db).filter (soRowFilter so catf)).filterMap (fun x =>
            if (notifs.find? (notifKey search_order_id x.1.id)).isSome then none
            else some (candidateOf x)))

/-- `SearchOrderService.create_notification_record` (lines 298-319): append a
new tracking record with `notified = False`. -/
def create_notification_record (notifs : List SearchOrderNotification)
    (nextId : Nat) (search_order_id court_id availability_id : Nat) :
    List SearchOrderNotification × Nat :=
  (notifs ++ [⟨nextId, search_order_id, court_id, availability_id, false⟩], nextId + 1)

/-- The caller loop of `fetch_and_search_availability`
(`courtfinder/base_provider.py` lines 364-367): one
`create_notification_record` per returned candidate. -/
def recordAll (notifs : List SearchOrderNotification) (nextId : Nat)
    (search_order_id : Nat) (cands : List NotificationCandidate) :
    List SearchOrderNotification × Nat :=
  cands.foldl (fun st c =>
    create_notification_record st.1 st.2 search_order_id c.court_id c.availability_id)
    (notifs, nextId)

theorem mem_recordAll_of_mem {n : SearchOrderNotification}
    (notifs : List SearchOrderNotification) (nextId soId : Nat)
    (cands : List NotificationCandidate) (h : n ∈ notifs) :
    n ∈ (recordAll notifs nextId soId cands).1 := by
  induction cands generalizing notifs nextId with
  | nil => exact h
  | cons c cs ih =>
      exact ih (notifs ++ [⟨nextId, soId, c.court_id, c.availability_id, false⟩])
        (nextId + 1) (List.mem_append.mpr (Or.inl h))

theorem recordAll_adds {c : NotificationCandidate}
    (notifs : List SearchOrderNotification) (nextId soId : Nat)
    (cands : List NotificationCandidate) (h : c ∈ cands) :
    ∃ n ∈ (recordAll notifs nextId soId cands).1,
      n.search_order_id = soId ∧ n.availability_id = c.availability_id := by
  induction cands generalizing notifs nextId with
  | nil => cases h
  | cons d ds ih =>
      cases List.mem_cons.mp h with
      | inl heq =>
          subst heq
          refine ⟨⟨nextId, soId, c.court_id, c.availability_id, false⟩, ?_, rfl, rfl⟩
          exact mem_recordAll_of_mem
            (notifs ++ [⟨nextId, soId, c.court_id, c.availability_id, false⟩])
            (nextId + 1) soId ds
            (List.mem_append.mpr (Or.inr (List.mem_singleton.mpr rfl)))
      | inr h' => exact ih _ _ h'

end SearchOrderService

section Scheduler

/-- Persisted `User` row restricted to the fields the scheduler reads. -/
structure User where
  user_id : String
  email : String
deriving DecidableEq, Repr

/-- Result dictionary appended to `all_courts` by `execute_search_order_task`
(`app/scheduler.py` lines 137-146). -/
structure SchedCourtRow where
  location : String
  court : String
  date : PDate
  start_time : Nat
  end_time : Nat
  price : String
deriving DecidableEq, Repr

/-- Email notification emitted through
`email_service.send_court_found_notification` (lines 188-194). -/
structure EmailEvent where
  recipient_email : String
  search_order_id : Nat
  courts_found : List SchedCourtRow
deriving DecidableEq, Repr

/-- State visible to the scheduler: the canonical database, the search
orders, the users, and the emails sent so far. -/
structure SchedState where
  db : DB
  orders : List SearchOrder
  users : List User
  emails : List EmailEvent
deriving DecidableEq, Repr

/-- `fetch_and_store_availability(location_id, ...)` as seen by the
scheduler: it either reconciles the database and reports a slot count, or
throws. -/
def SchedFetcher : Type := Nat → DB → Except String (DB × Nat)

/-- Python truthiness of a nullable boolean column value. -/
def truthy : Option Bool → Bool
  | some true => true
  | _ => false

/-- `Location.id.in_(location_ids)` query of the scheduler (lines 63-67). -/
def schedLocs (db : DB) (order : SearchOrder) : List Location :=
  db.locations.filter (fun l => order.location_ids.contains l.id)

/-- Availability query of one scheduler location iteration (lines 95-109):
date, a start-time-only window, duration, an inner join on a court of this
location, and the availability flag. -/
def schedRowFilter (order : SearchOrder) (locId : Nat) (db : DB)
    (a : Availability) : Bool :=
  a.date == order.date && decide (order.start_time ≤ a.start_time) &&
    decide (a.start_time ≤ order.end_time) && a.duration == order.duration_minutes &&
    db.courts.any (fun c => c.id == a.court_id && c.location_id == locId) && a.available

/-- Per-availability Python-side category filtering of the scheduler (lines
116-146): `continue` on a category mismatch, with both filters skipped when
the court lookup fails (the court name then falls back to the raw id). -/
def schedProcessAvail (db : DB) (order : SearchOrder) (locName : String)
    (a : Availability) : Option SchedCourtRow :=
  match db.courts.find? (fun c => c.id == a.court_id) with
  | some c =>
      if order.court_type == "indoor" && !(truthy c.indoor) then none
      else if order.court_type == "outdoor" && truthy c.indoor then none
      else if order.court_config == "single" && truthy c.double then none
      else if order.court_config == "double" && !(truthy c.double) then none
      else some ⟨locName, c.name, a.date, a.start_time, a.end_time, a.price⟩
  | none => some ⟨locName, toString a.court_id, a.date, a.start_time, a.end_time, a.price⟩

/-- One iteration of the scheduler's location loop (lines 78-152): the
per-location `try/except` turns a throwing fetch into a `continue` that
leaves the state untouched, while a successful fetch contributes its matching
rows to `all_courts`. -/
def schedSearchLocation (f : SchedFetcher) (order : SearchOrder)
    (p : DB × List SchedCourtRow) (loc : Location) : DB × List SchedCourtRow :=
  match f loc.id p.1 with
  | Except.error _ => p
  | Except.ok (db', _) =>
      (db', p.2 ++ (db'.availabilities.filter (schedRowFilter order loc.id db')).filterMap
        (schedProcessAvail db' order loc.name))

/-- The whole location loop of one `execute_search_order_task` run. -/
def schedRun (f : SchedFetcher) (db : DB) (order : SearchOrder) :
    DB × List SchedCourtRow :=
  (schedLocs db order).foldl (schedSearchLocation f order) (db, [])

/-- Email block of `execute_search_order_task` (lines 163-205): an email
event is recorded when courts were found, the order's user exists and has a
non-empty email address. -/
def schedEmailUpdate (users : List User) (emails : List EmailEvent)
    (order : SearchOrder) (courts : List SchedCourtRow) : List EmailEvent :=
  if courts.isEmpty then emails
  else
    match users.find? (fun u => some u.user_id == order.user_id) with
    | some u =>
        if u.email == "" then emails
        else emails ++ [⟨u.email, order.id, courts⟩]
    | none => emails

/-- `execute_search_order_task` (`app/scheduler.py` lines 27-210): look up
the order, bail out if missing or inactive or without known locations, run
the location loop, unconditionally stamp `last_check_at`, then emit the email
event if courts were found. -/
def execute_search_order_task (f : SchedFetcher) (now : Int) (st : SchedState)
    (order_id : Nat) : SchedState :=
  match st.orders.find? (fun o => o.id == order_id) with
  | none => st
  | some order =>
      if !order.is_active then st
      else if (schedLocs st.db order).isEmpty then st
      else
        { db := (schedRun f st.db order).1,
          orders := updateFirst (fun o => o.id == order_id)
            (fun o => { o with last_check_at := some now }) st.orders,
          users := st.users,
          emails := schedEmailUpdate st.users st.emails order (schedRun f st.db order).2 }

/-- `date >= today` on calendar dates. -/
def pdateLe (d1 d2 : PDate) : Bool :=
  decide (d1.year < d2.year) || (d1.year == d2.year &&
    (decide (d1.month < d2.month) || (d1.month == d2.month && decide (d1.day ≤ d2.day))))

/-- `check_active_search_orders` (`app/scheduler.py` lines 213-244): execute
every active order with a non-past date, in list order. -/
def check_active_search_orders (f : SchedFetcher) (now : Int) (today : PDate)
    (st : SchedState) : SchedState :=
  (st.orders.filter (fun o => o.is_active && pdateLe today o.date)).foldl
    (fun s o => execute_search_order_task f now s o.id) st

theorem schedSearchLocation_fail (f : SchedFetcher) (order : SearchOrder)
    (p : DB × List SchedCourtRow) (loc : Location)
    (h : ∀ d, (f loc.id d).isOk = false) :
    schedSearchLocation f order p loc = p := by
  unfold schedSearchLocation
  cases hf : f loc.id p.1 with
  | error e => rfl
  | ok v =>
      have hv := h p.1
      rw [hf] at hv
      cases hv

theorem schedFold_middle_fail (f : SchedFetcher) (order : SearchOrder)
    (p : DB × List SchedCourtRow) (pre post : List Location) (lbad : Location)
    (h : ∀ d, (f lbad.id d).isOk = false) :
    (pre ++ lbad :: post).foldl (schedSearchLocation f order) p =
      (pre ++ post).foldl (schedSearchLocation f order) p := by
  rw [List.foldl_append, List.foldl_append, List.foldl_cons,
    schedSearchLocation_fail f order _ lbad h]

theorem schedFold_fail_all (f : SchedFetcher) (order : SearchOrder)
    (locs : List Location) (p : DB × List SchedCourtRow)
    (h : ∀ l ∈ locs, ∀ d, (f l.id d).isOk = false) :
    locs.foldl (schedSearchLocation f order) p = p := by
  induction locs generalizing p with
  | nil => rfl
  | cons l ls ih =>
      rw [List.foldl_cons, schedSearchLocation_fail f order p l (h l (by simp))]
      exact ih p (fun l' hl' => h l' (by simp [hl']))

theorem execute_ok (f : SchedFetcher) (now : Int) (st : SchedState)
    (order_id : Nat) (order : SearchOrder)
    (hfind : st.orders.find? (fun o => o.id == order_id) = some order)
    (hact : order.is_active = true)
    (hlocs : (schedLocs st.db order).isEmpty = false) :
    execute_search_order_task f now st order_id =
      { db := (schedRun f st.db order).1,
        orders := updateFirst (fun o => o.id == order_id)
          (fun o => { o with last_check_at := some now }) st.orders,
        users := st.users,
        emails := schedEmailUpdate st.users st.emails order (schedRun f st.db order).2 } := by
  unfold execute_search_order_task
  rw [hfind]
  dsimp only
  rw [if_neg (by simp [hact]), if_neg (by simp [hlocs])]

theorem execute_fail_all (f : SchedFetcher) (now : Int) (st : SchedState)
    (order_id : Nat) (order : SearchOrder)
    (hfind : st.orders.find? (fun o => o.id == order_id) = some order)
    (hact : order.is_active = true)
    (hlocs : (schedLocs st.db order).isEmpty = false)
    (hfail : ∀ l ∈ schedLocs st.db order, ∀ d, (f l.id d).isOk = false) :
    execute_search_order_task f now st order_id =
      { st with orders := updateFirst (fun o => o.id == order_id) (fun o => { o with last_check_at := some now }) st.orders } := by
  rw [execute_ok f now st order_id order hfind hact hlocs]
  have hrun : schedRun f st.db order = (st.db, []) :=
    schedFold_fail_all f order _ _ hfail
  rw [hrun]
  rfl

end Scheduler

section ReconWF

/-- The claim's natural key of a persisted slot:
`(court, date, start_time, duration)`. -/
def durKey (a : Availability) : Nat × PDate × Nat × Nat :=
  (a.court_id, a.date, a.start_time, a.duration)

/-- End/duration consistency of a stored row: the stored end time is the
start time advanced by the duration (modulo one day).  Every row created by
the reconcilers satisfies this, and provider records satisfy it because the
parsers compute the end as `start + timedelta(minutes=duration)`
(`courtfinder/padelmate.py` lines 26-29). -/
def slotConsistent (a : Availability) : Prop :=
  a.end_time = (a.start_time + a.duration) % 1440

/-- End/duration consistency of an incoming record. -/
def recConsistent (r : AvailabilityRecord) : Prop :=
  r.end_time = (r.start_time + r.duration) % 1440

/-- Well-formedness of the availability table: every row is
end/duration-consistent, and no two rows share the upsert key
`(court_id, date, start_time, end_time)`. -/
def AvailsWF (rows : List Availability) : Prop :=
  (∀ a ∈ rows, slotConsistent a) ∧
    rows.Pairwise (fun a b => rowKey a ≠ rowKey b)

/-- One reconciliation operation of the claim: a provider bulk upsert, an
internal-DTO store, or a placeholder-court merge. -/
inductive ReconOp where
  | bulk : List AvailabilityRecord → ReconOp
  | internal : List InternalAvailabilityDTO → ReconOp
  | merge : Nat → Nat → ReconOp

/-- The merge loop of `add_location_by_slug` (`courtfinder/padelmate.py`
lines 373-397) over the availability table, processed left to right with the
already-processed prefix in `done`: a row of the UUID court whose
`(proper_court, date, start_time, end_time)` key already exists elsewhere is
deleted, otherwise it is reassigned to the proper court. -/
def mergeLoop (uuidId properId : Nat) (done : List Availability) :
    List Availability → List Availability
  | [] => done
  | a :: rest =>
      if a.court_id == uuidId then
        if (done ++ rest).any (fun b => b.court_id == properId && b.date == a.date &&
            b.start_time == a.start_time && b.end_time == a.end_time) then
          mergeLoop uuidId properId done rest
        else
          mergeLoop uuidId properId (done ++ [{ a with court_id := properId }]) rest
      else
        mergeLoop uuidId properId (done ++ [a]) rest

/-- The whole placeholder-court merge (lines 373-397): move the UUID court's
availabilities and delete the UUID court. -/
def mergeCourtAvailabilities (db : DB) (uuidId properId : Nat) : DB :=
  { db with
    availabilities := mergeLoop uuidId properId [] db.availabilities,
    courts := db.courts.filter (fun c => c.id != uuidId) }

/-- One reconciliation operation applied to the database.  A failing
`store_internal_availabilities` run rolls its transaction back, leaving the
state unchanged. -/
def applyReconOp (db : DB) : ReconOp → DB
  | ReconOp.bulk rs =>
      { db with
        availabilities := (bulk_add_availabilities rs ⟨db.availabilities, db.nextAvailId⟩).1.rows,
        nextAvailId := (bulk_add_availabilities rs ⟨db.availabilities, db.nextAvailId⟩).1.nextId }
  | ReconOp.internal items =>
      match store_internal_availabilities items db with
      | Except.ok db' => db'
      | Except.error _ => db
  | ReconOp.merge uuidId properId => mergeCourtAvailabilities db uuidId properId

/-- A sequence of reconciliation operations. -/
def applyReconOps (db : DB) (ops : List ReconOp) : DB :=
  ops.foldl applyReconOp db

/-- Input hypothesis on one operation: bulk records carry a consistent
end/duration pair, as the providers construct them. -/
def ReconOpConsistent : ReconOp → Prop
  | ReconOp.bulk rs => ∀ r ∈ rs, recConsistent r
  | ReconOp.internal _ => True
  | ReconOp.merge _ _ => True

theorem parseHMChars_lt {cs : List Char} {t : Nat}
    (h : parseHMChars cs = some t) : t < 1440 := by
  unfold parseHMChars at h
  cases hsp : splitChar ':' cs with
  | nil => rw [hsp] at h; cases h
  | cons a l1 =>
      cases l1 with
      | nil => rw [hsp] at h; cases h
      | cons b l2 =>
          cases l2 with
          | nil =>
              rw [hsp] at h
              dsimp only at h
              split at h
              · split at h
                · rename_i hcond
                  simp only [Bool.and_eq_true, decide_eq_true_eq] at hcond
                  have ht := Option.some.inj h
                  omega
                · cases h
              · cases h
          | cons c l3 => rw [hsp] at h; cases h

theorem parseTimeslot_lt {s : String} {st en : Nat}
    (h : parseTimeslot s = some (st, en)) : st < 1440 ∧ en < 1440 := by
  unfold parseTimeslot at h
  cases hsp : splitChar '-' s.toList with
  | nil => rw [hsp] at h; cases h
  | cons a l1 =>
      cases l1 with
      | nil => rw [hsp] at h; cases h
      | cons b l2 =>
          cases l2 with
          | nil =>
              rw [hsp] at h
              dsimp only at h
              cases ha : parseHMChars a with
              | none => rw [ha] at h; cases h
              | some t1 =>
                  cases hb : parseHMChars b with
                  | none => rw [ha, hb] at h; cases h
                  | some t2 =>
                      rw [ha, hb] at h
                      dsimp only at h
                      have hp := Option.some.inj h
                      have h1 : t1 = st := congrArg Prod.fst hp
                      have h2 : t2 = en := congrArg Prod.snd hp
                      subst h1
                      subst h2
                      exact ⟨parseHMChars_lt ha, parseHMChars_lt hb⟩
          | cons c l3 => rw [hsp] at h; cases h

theorem mem_updateFirst {α : Type} (p : α → Bool) (f : α → α) :
    ∀ (l : List α) (x : α), x ∈ updateFirst p f l →
      x ∈ l ∨ ∃ y ∈ l, p y = true ∧ x = f y := by
  intro l
  induction l with
  | nil => intro x hx; cases hx
  | cons a rest ih =>
      intro x hx
      unfold updateFirst at hx
      by_cases hp : p a = true
      · rw [if_pos hp] at hx
        cases List.mem_cons.mp hx with
        | inl heq => exact Or.inr ⟨a, List.mem_cons_self a rest, hp, heq⟩
        | inr hmem => exact Or.inl (List.mem_cons.mpr (Or.inr hmem))
      · rw [if_neg hp] at hx
        cases List.mem_cons.mp hx with
        | inl heq => exact Or.inl (List.mem_cons.mpr (Or.inl heq))
        | inr hmem =>
            cases ih x hmem with
            | inl h1 => exact Or.inl (List.mem_cons.mpr (Or.inr h1))
            | inr h1 =>
                obtain ⟨y, hy, hpy, hxy⟩ := h1
                exact Or.inr ⟨y, List.mem_cons.mpr (Or.inr hy), hpy, hxy⟩

theorem map_updateFirst {α β : Type} (g : α → β) (p : α → Bool) (f : α → α)
    (hf : ∀ y, g (f y) = g y) :
    ∀ l : List α, (updateFirst p f l).map g = l.map g := by
  intro l
  induction l with
  | nil => rfl
  | cons a rest ih =>
      unfold updateFirst
      by_cases hp : p a = true
      · rw [if_pos hp]
        simp [hf a]
      · rw [if_neg hp]
        simp [ih]

theorem pairwise_updateFirst_key {f : Availability → Availability}
    (hf : ∀ y, rowKey (f y) = rowKey y) (p : Availability → Bool)
    (rows : List Availability)
    (h : rows.Pairwise (fun a b => rowKey a ≠ rowKey b)) :
    (updateFirst p f rows).Pairwise (fun a b => rowKey a ≠ rowKey b) := by
  have hmap := map_updateFirst rowKey p f hf rows
  have h1 : (rows.map rowKey).Pairwise (fun a b => a ≠ b) := List.pairwise_map.mpr h
  have h2 : ((updateFirst p f rows).map rowKey).Pairwise (fun a b => a ≠ b) := by
    rw [hmap]
    exact h1
  exact List.pairwise_map.mp h2

theorem append_new_wf (rows : List Availability) (id : Nat) (r : AvailabilityRecord)
    (hwf : AvailsWF rows) (hr : recConsistent r)
    (hfind : rows.find? (availMatches r) = none) :
    AvailsWF (rows ++ [newAvail id r]) := by
  obtain ⟨hcons, hpair⟩ := hwf
  constructor
  · intro x hx
    cases List.mem_append.mp hx with
    | inl hmem => exact hcons x hmem
    | inr hnew =>
        rw [List.mem_singleton.mp hnew]
        exact hr
  · rw [List.pairwise_append]
    refine ⟨hpair, List.pairwise_singleton _ _, ?_⟩
    intro a ha b hb
    rw [List.mem_singleton.mp hb]
    intro hkey
    exact (List.find?_eq_none.mp hfind a ha)
      ((availMatches_iff r a).2 (by rw [hkey]; rfl))

theorem bulkUpsert_wf (s : AvailStore) (r : AvailabilityRecord)
    (hr : recConsistent r) (hwf : AvailsWF s.rows) :
    AvailsWF (bulkUpsert s r).rows := by
  obtain ⟨hcons, hpair⟩ := hwf
  unfold bulkUpsert
  cases hfind : s.rows.find? (availMatches r) with
  | some a0 =>
      dsimp only
      constructor
      · intro x hx
        cases mem_updateFirst (availMatches r) (applyBulkUpdate r) s.rows x hx with
        | inl hmem => exact hcons x hmem
        | inr hup =>
            obtain ⟨y, hy, hpy, rfl⟩ := hup
            have hk := (availMatches_iff r y).1 hpy
            have h3 : y.start_time = r.start_time := congrArg (fun k => k.2.2.1) hk
            have h4 : y.end_time = r.end_time := congrArg (fun k => k.2.2.2) hk
            show (applyBulkUpdate r y).end_time =
              ((applyBulkUpdate r y).start_time + (applyBulkUpdate r y).duration) % 1440
            simp only [applyBulkUpdate]
            rw [h3, h4]
            exact hr
      · exact pairwise_updateFirst_key
          (fun y => rowKey_of_payloadOnly (payloadOnly_applyBulkUpdate r) y)
          (availMatches r) s.rows hpair
  | none =>
      dsimp only
      exact append_new_wf s.rows s.nextId r ⟨hcons, hpair⟩ hr hfind

theorem bulkState_wf (rs : List AvailabilityRecord) :
    ∀ s : AvailStore, (∀ r ∈ rs, recConsistent r) → AvailsWF s.rows →
      AvailsWF (bulkState rs s).rows := by
  induction rs with
  | nil => intro s _ hwf; exact hwf
  | cons r rest ih =>
      intro s hc hwf
      unfold bulkState
      rw [List.foldl_cons]
      exact ih (bulkUpsert s r) (fun r' hr' => hc r' (List.mem_cons.mpr (Or.inr hr')))
        (bulkUpsert_wf s r (hc r (List.mem_cons_self r rest)) hwf)

theorem storeAvailability_wf {db : DB} {court : Court}
    {item : InternalAvailabilityDTO} {db' : DB}
    (h : storeAvailability db court item = Except.ok db')
    (hwf : AvailsWF db.availabilities) : AvailsWF db'.availabilities := by
  unfold storeAvailability at h
  cases hts : parseTimeslot item.timeslot with
  | none => rw [hts] at h; cases h
  | some p =>
      obtain ⟨st, en⟩ := p
      cases hds : parseDateStr item.date with
      | none => rw [hts, hds] at h; cases h
      | some d =>
          rw [hts, hds] at h
          dsimp only at h
          have hen : en < 1440 := (parseTimeslot_lt hts).2
          have hst : st < 1440 := (parseTimeslot_lt hts).1
          have hrc : recConsistent (internalRecord court.id d st en item) := by
            show en = (st + (1440 + en - st) % 1440) % 1440
            omega
          cases hfind : db.availabilities.find?
              (availMatches (internalRecord court.id d st en item)) with
          | some a0 =>
              rw [hfind] at h
              have hdb := Except.ok.inj h
              rw [← hdb]
              obtain ⟨hcons, hpair⟩ := hwf
              constructor
              · intro x hx
                cases mem_updateFirst _ _ db.availabilities x hx with
                | inl hmem => exact hcons x hmem
                | inr hup =>
                    obtain ⟨y, hy, _, rfl⟩ := hup
                    show (applyInternalUpdate item y).end_time =
                      ((applyInternalUpdate item y).start_time +
                        (applyInternalUpdate item y).duration) % 1440
                    simp only [applyInternalUpdate]
                    exact hcons y hy
              · refine pairwise_updateFirst_key (fun y => ?_) _ _ hpair
                simp [applyInternalUpdate, rowKey]
          | none =>
              rw [hfind] at h
              have hdb := Except.ok.inj h
              rw [← hdb]
              exact append_new_wf db.availabilities db.nextAvailId _ hwf hrc hfind

theorem storeInternalItem_wf {db : DB} {item : InternalAvailabilityDTO} {db' : DB}
    (h : storeInternalItem db item = Except.ok db')
    (hwf : AvailsWF db.availabilities) : AvailsWF db'.availabilities := by
  unfold storeInternalItem at h
  cases hloc : findLocation db item.location with
  | none =>
      rw [hloc] at h
      have hdb := Except.ok.inj h
      rw [← hdb]
      exact hwf
  | some loc =>
      rw [hloc] at h
      dsimp only at h
      cases hct : findCourtByName db loc.id item.court with
      | some c =>
          rw [hct] at h
          exact storeAvailability_wf h hwf
      | none =>
          rw [hct] at h
          dsimp only at h
          exact storeAvailability_wf h hwf

theorem store_internal_wf (items : List InternalAvailabilityDTO) :
    ∀ {db db' : DB}, store_internal_availabilities items db = Except.ok db' →
      AvailsWF db.availabilities → AvailsWF db'.availabilities := by
  induction items with
  | nil =>
      intro db db' h hwf
      cases h
      exact hwf
  | cons item rest ih =>
      intro db db' h hwf
      rw [store_internal_cons] at h
      cases hstep : storeInternalItem db item with
      | error e => rw [hstep] at h; cases h
      | ok d1 =>
          rw [hstep] at h
          exact ih h (storeInternalItem_wf hstep hwf)

theorem mergeLoop_wf (uuidId properId : Nat) :
    ∀ (rest done : List Availability), AvailsWF (done ++ rest) →
      AvailsWF (mergeLoop uuidId properId done rest) := by
  intro rest
  induction rest with
  | nil =>
      intro done hwf
      unfold mergeLoop
      simpa using hwf
  | cons a rest ih =>
      intro done hwf
      unfold mergeLoop
      by_cases hcid : (a.court_id == uuidId) = true
      · rw [if_pos hcid]
        by_cases hex : ((done ++ rest).any (fun b => b.court_id == properId &&
            b.date == a.date && b.start_time == a.start_time &&
            b.end_time == a.end_time)) = true
        · rw [if_pos hex]
          apply ih
          refine ⟨fun x hx => hwf.1 x ?_, hwf.2.sublist ?_⟩
          · cases List.mem_append.mp hx with
            | inl h1 => exact List.mem_append.mpr (Or.inl h1)
            | inr h1 => exact List.mem_append.mpr (Or.inr (List.mem_cons.mpr (Or.inr h1)))
          · exact List.Sublist.append_left (List.sublist_cons_self a rest) done
        · rw [if_neg hex]
          apply ih
          rw [List.append_assoc, List.singleton_append]
          have hmid := (List.pairwise_middle (fun hxy => Ne.symm hxy)).mp hwf.2
          have htail : (done ++ rest).Pairwise (fun x y => rowKey x ≠ rowKey y) :=
            (List.pairwise_cons.mp hmid).2
          have hexf : ∀ b ∈ done ++ rest, ¬(b.court_id == properId &&
              b.date == a.date && b.start_time == a.start_time &&
              b.end_time == a.end_time) = true := by
            intro b hb hbp
            exact hex (List.any_eq_true.mpr ⟨b, hb, hbp⟩)
          constructor
          · intro x hx
            cases List.mem_append.mp hx with
            | inl h1 => exact hwf.1 x (List.mem_append.mpr (Or.inl h1))
            | inr h1 =>
                cases List.mem_cons.mp h1 with
                | inl heq =>
                    rw [heq]
                    exact hwf.1 a
                      (List.mem_append.mpr (Or.inr (List.mem_cons_self a rest)))
                | inr h2 =>
                    exact hwf.1 x
                      (List.mem_append.mpr (Or.inr (List.mem_cons.mpr (Or.inr h2))))
          · rw [List.pairwise_middle (fun hxy => Ne.symm hxy), List.pairwise_cons]
            refine ⟨?_, htail⟩
            intro b hb hkey
            have h1 : properId = b.court_id := congrArg (fun k => k.1) hkey
            have h2 : a.date = b.date := congrArg (fun k => k.2.1) hkey
            have h3 : a.start_time = b.start_time := congrArg (fun k => k.2.2.1) hkey
            have h4 : a.end_time = b.end_time := congrArg (fun k => k.2.2.2) hkey
            apply hexf b hb
            rw [← h1, ← h2, ← h3, ← h4]
            simp
      · rw [if_neg hcid]
        apply ih
        rw [List.append_assoc, List.singleton_append]
        exact hwf

theorem applyReconOp_wf (db : DB) (op : ReconOp)
    (hwf : AvailsWF db.availabilities) (hop : ReconOpConsistent op) :
    AvailsWF (applyReconOp db op).availabilities := by
  cases op with
  | bulk rs =>
      show AvailsWF (bulk_add_availabilities rs ⟨db.availabilities, db.nextAvailId⟩).1.rows
      unfold bulk_add_availabilities
      rw [foldl_bulkAddStep_fst]
      exact bulkState_wf rs ⟨db.availabilities, db.nextAvailId⟩ hop hwf
  | internal items =>
      show AvailsWF (match store_internal_availabilities items db with
        | Except.ok db' => db'
        | Except.error _ => db).availabilities
      cases h : store_internal_availabilities items db with
      | ok db' => exact store_internal_wf items h hwf
      | error e => exact hwf
  | merge uuidId properId =>
      show AvailsWF (mergeLoop uuidId properId [] db.availabilities)
      exact mergeLoop_wf uuidId properId db.availabilities [] (by simpa using hwf)

theorem applyReconOps_wf (ops : List ReconOp) :
    ∀ db : DB, AvailsWF db.availabilities → (∀ op ∈ ops, ReconOpConsistent op) →
      AvailsWF (applyReconOps db ops).availabilities := by
  induction ops with
  | nil => intro db hwf _; exact hwf
  | cons op rest ih =>
      intro db hwf hops
      unfold applyReconOps
      rw [List.foldl_cons]
      exact ih (applyReconOp db op)
        (applyReconOp_wf db op hwf (hops op (List.mem_cons_self op rest)))
        (fun o ho => hops o (List.mem_cons.mpr (Or.inr ho)))

theorem durKey_unique_of_wf {rows : List Availability} (h : AvailsWF rows) :
    rows.Pairwise (fun a b => durKey a ≠ durKey b) := by
  obtain ⟨hcons, hpair⟩ := h
  refine hpair.imp_of_mem ?_
  intro a b ha hb hne hdk
  apply hne
  have h1 : a.court_id = b.court_id := congrArg (fun k => k.1) hdk
  have h2 : a.date = b.date := congrArg (fun k => k.2.1) hdk
  have h3 : a.start_time = b.start_time := congrArg (fun k => k.2.2.1) hdk
  have h4 : a.duration = b.duration := congrArg (fun k => k.2.2.2) hdk
  have hend : a.end_time = b.end_time := by
    have hca := hcons a ha
    have hcb := hcons b hb
    rw [hca, hcb, h3, h4]
  show (a.court_id, a.date, a.start_time, a.end_time) =
    (b.court_id, b.date, b.start_time, b.end_time)
  rw [h1, h2, h3, hend]

end ReconWF

section Orchestrator

/-- Application state visible to `run_search_task`. -/
structure AppState where
  db : DB
  searchRequests : List SearchRequest
  tasks : List SearchTask
deriving DecidableEq, Repr

/-- Search parameters captured at task submission (`routes/tasks.py` lines
30-39); the sport identifier is absorbed into the provider capability. -/
structure SearchParams where
  date : PDate
  start_time : Nat
  end_time : Nat
  duration_minutes : Nat
  court_type : String
  court_config : String
  force_live_search : Bool
  location_ids : List Nat
deriving DecidableEq, Repr

/-- Provider capability used by the orchestrator:
`provider.fetch_and_store_availability(loc_id, date_str, sport)` either
raises or reconciles the fetched slots into the database and returns the
added/updated counts. -/
abbrev Fetcher := Nat → DB → Except String (DB × Nat × Nat)

/-- `SearchService.create_search_request_record`
(`services/search_service.py` lines 25-104): upsert keyed by the hash,
refreshing timestamp, live flag and slots-found count on an existing row. -/
def create_search_request_record (rows : List SearchRequest) (search_hash : String)
    (live_search : Bool) (slots_found : Nat) (now : Int) : List SearchRequest :=
  match rows.find? (fun sr => sr.search_hash == search_hash) with
  | some _ =>
      updateFirst (fun sr => sr.search_hash == search_hash)
        (fun sr => { sr with performed_at := now, live_search := live_search, slots_found := slots_found })
        rows
  | none => rows ++ [⟨search_hash, live_search, now, slots_found⟩]

/-- One iteration of the fetch loop of `run_search_task` (`routes/tasks.py`
lines 82-139): resolve the location (skip if missing), fetch and reconcile
(a provider exception is caught, logged and skipped), record the search
request, and bump the processed counter and progress.  The task status is
never consulted. -/
def runSearchLocationStep (fetcher : Fetcher) (md5hex : String → String)
    (now : Int) (task_id : String) (params : SearchParams) (liveCount : Nat)
    (st : AppState × Nat) (loc : Nat) : AppState × Nat :=
  match st.1.db.locations.find? (fun l => l.id == loc) with
  | none => st
  | some location =>
      match fetcher loc st.1.db with
      | Except.error _ => st
      | Except.ok (db', added, updated) =>
          let search_hash := searchServiceHash md5hex params.date loc
          let requests := create_search_request_record st.1.searchRequests
            search_hash true (added + updated) now
          let processed := st.2 + 1
          let progress := 5 + processed * 80 / max liveCount 1
          let tasks := update_task_progress st.1.tasks task_id progress
            ("Fetched " ++ location.name) (some processed) none now
          (⟨db', requests, tasks⟩, processed)

/-- The fetch loop of `run_search_task`, with an optional index `cancelAt`
marking the gap between two iterations at which a concurrent `cancel_task`
call (the `/cancel` route) lands.  The loop body is exactly
`runSearchLocationStep` — the source loop contains no cancellation check. -/
def runSearchLoop (fetcher : Fetcher) (md5hex : String → String) (now : Int)
    (task_id : String) (params : SearchParams) (liveCount : Nat)
    (cancelAt : Option Nat) : Nat → AppState × Nat → List Nat → AppState × Nat
  | _, st, [] => st
  | idx, st, loc :: rest =>
      let st0 := if cancelAt = some idx then
          ({ st.1 with tasks := cancel_task st.1.tasks task_id now }, st.2)
        else st
      runSearchLoop fetcher md5hex now task_id params liveCount cancelAt (idx + 1)
        (runSearchLocationStep fetcher md5hex now task_id params liveCount st0 loc) rest

/-- `run_search_task` (`routes/tasks.py` lines 21-261): start the task, decide
per location whether a live fetch is needed, fetch sequentially, compile the
result query and complete the task — or fail it if the query construction
raises.  No step between `start_task` and `complete_task` reads the task
status, so a cancellation landing at `cancelAt` is silently overwritten. -/
def run_search_task (fetcher : Fetcher) (md5hex : String → String) (now : Int)
    (task_id : String) (search_params : SearchParams) (cancelAt : Option Nat)
    (st : AppState) : AppState :=
  let st := { st with tasks := start_task st.tasks task_id now }
  let location_ids := if search_params.location_ids.isEmpty then
      st.db.locations.map (fun l => l.id)
    else search_params.location_ids
  let total_locations := location_ids.length
  let tasks1 := update_task_progress st.tasks task_id 5
    ("Found " ++ toString total_locations ++ " locations to search") (some 0) none now
  let st := { st with tasks := tasks1 }
  let live_locations := location_ids.filter (fun loc =>
    shouldFetchLive st.searchRequests now (searchServiceHash md5hex search_params.date loc)
      15 search_params.force_live_search)
  let tasks2 := update_task_progress st.tasks task_id 5
    ("Fetching availability for " ++ toString live_locations.length ++ " locations...")
    (some 0) (some live_locations.length) now
  let st := { st with tasks := tasks2 }
  let looped := runSearchLoop fetcher md5hex now task_id search_params
    live_locations.length cancelAt 0 (st, 0) live_locations
  let st := looped.1
  let tasks3 := update_task_progress st.tasks task_id 85
    "Compiling search results..." (some live_locations.length) none now
  let st := { st with tasks := tasks3 }
  match searchTaskQuery st.db search_params.date search_params.start_time
      search_params.end_time search_params.duration_minutes search_params.court_type
      search_params.court_config location_ids with
  | Except.ok results => { st with tasks := complete_task st.tasks task_id results now }
  | Except.error e => { st with tasks := fail_task st.tasks task_id (toString e) now }

end Orchestrator

theorem get_task_updateFirst (f : SearchTask → SearchTask)
    (hf : ∀ a, (f a).task_id = a.task_id) (ts : List SearchTask) (task_id : String) :
    get_task (updateFirst (fun t => t.task_id == task_id) f ts) task_id =
      (get_task ts task_id).map f := by
  unfold get_task
  exact find?_updateFirst_self (fun a => by rw [hf a])

/-- A cancelled task used to instantiate the task-state theorems. -/
def c5CancelledTask : SearchTask :=
  ⟨"t1", "u1", "cancelled", 40, "Search cancelled", 2, 1, none, none, none, some 50, some 50⟩

/-- A running task used to instantiate the task-state theorems. -/
def c5RunningTask : SearchTask :=
  ⟨"t2", "u1", "running", 40, "Fetching", 2, 1, none, none, some 10, none, some 50⟩

/-- C5 counterexample: terminal states are not absorbing — `complete_task`
applied to a task whose status is `cancelled` (terminal) overwrites the
status with `completed`, so a subsequent operation does change the status of
a terminal task, contradicting the claim. -/
theorem c5_terminal_states_counterexample :
    c5CancelledTask.status = "cancelled" ∧
    (get_task (complete_task [c5CancelledTask] "t1" [] 60) "t1").map SearchTask.status =
      some "completed" := by
  constructor
  · rfl
  · rfl

/-- C5 amended: only `cancel_task` guards on the current status — it is
permitted only from `pending` or `running` and leaves an already-terminal
task (and the whole store) unchanged, while `complete_task`, `fail_task`,
`start_task` and `update_task_progress` apply unconditionally, so terminal
states are absorbing only with respect to `cancel_task`. -/
theorem c5_cancel_guard_amended (ts : List SearchTask) (task_id : String) (now : Int)
    (t : SearchTask) (h : get_task ts task_id = some t) :
    (t.status = "completed" ∨ t.status = "failed" ∨ t.status = "cancelled" →
      cancel_task ts task_id now = ts) ∧
    (t.status = "pending" ∨ t.status = "running" →
      (get_task (cancel_task ts task_id now) task_id).map SearchTask.status =
        some "cancelled") := by
  constructor
  · intro hterm
    have hfix : (if t.status == "pending" || t.status == "running" then
        { t with status := "cancelled", current_step := "Search cancelled", completed_at := some now, updated_at := some now }
      else t) = t := by
      rcases hterm with h1 | h1 | h1 <;> simp [h1]
    exact updateFirst_id_of_fixed h hfix
  · intro hpr
    have hguard : (t.status == "pending" || t.status == "running") = true := by
      rcases hpr with h1 | h1 <;> simp [h1]
    rw [cancel_task, get_task_updateFirst _ (fun a => by
      by_cases hg : (a.status == "pending" || a.status == "running") = true
      · simp [hg]
      · simp [hg]), h]
    simp [hguard]
    rw [if_pos hpr]

/-- C5 amended claim witness: cancelling an already-cancelled task leaves the
store unchanged, and cancelling a running task moves it to `cancelled`. -/
theorem c5_cancel_guard_amended_witness :
    cancel_task [c5CancelledTask] "t1" 60 = [c5CancelledTask] ∧
    (get_task (cancel_task [c5RunningTask] "t2" 60) "t2").map SearchTask.status =
      some "cancelled" :=
  ⟨(c5_cancel_guard_amended [c5CancelledTask] "t1" 60 c5CancelledTask rfl).1
      (Or.inr (Or.inr rfl)),
    (c5_cancel_guard_amended [c5RunningTask] "t2" 60 c5RunningTask rfl).2
      (Or.inr rfl)⟩

/-- Database used for the cancellation scenario: two locations, no stored
slots. -/
def c6Db : DB :=
  ⟨[⟨1, "Club A", "a", "Playtomic", "t1", "TZ"⟩, ⟨2, "Club B", "b", "Playtomic", "t2", "TZ"⟩],
    [], [], 10, 10⟩

/-- Pending two-location task used for the cancellation scenario. -/
def c6Task : SearchTask :=
  ⟨"t1", "u1", "pending", 0, "Initializing search...", 2, 0, none, none, none, none, none⟩

/-- Final state of the cancellation scenario: a fresh two-location search in
which `cancel_task` lands between the first and the second location fetch. -/
def c6Final : AppState :=
  run_search_task (fun _ db => Except.ok (db, 0, 0)) (fun s => s) 0 "t1"
    ⟨⟨2025, 11, 20⟩, 1020, 1140, 90, "all", "all", false, [1, 2]⟩ (some 1)
    ⟨c6Db, [], [c6Task]⟩

/-- Location used for the matcher-window scenario. -/
def c1Loc : Location := ⟨1, "Club A", "a", "Playtomic", "t1", "TZ"⟩

/-- Court used for the matcher-window scenario. -/
def c1Court : Court := ⟨1, "Court 1", some "r1", 1, some "padel", some true, some true⟩

/-- Available slot starting exactly at the end of the query window, with a
duration that pushes its computed end past the window. -/
def c1Avail : Availability := ⟨1, 1, ⟨2025, 11, 20⟩, 1140, 1230, 90, "30.00", true⟩

/-- Database holding exactly the boundary slot. -/
def c1Db : DB := ⟨[c1Loc], [c1Court], [c1Avail], 2, 2⟩

/-- C1 counterexample: the two cited matchers disagree at the window
boundary.  For a slot starting exactly at `endRange` whose computed end
exceeds the window, the `run_search_task` query returns the slot
(start-time-only window), but `get_available_courts_in_time_range`
recomputes the slot end and drops the row, so the claimed start-time-only
"returned iff" is false on that code path. -/
theorem c1_matcher_window_counterexample :
    searchTaskQuery c1Db ⟨2025, 11, 20⟩ 1020 1140 90 "all" "all" [1] =
      Except.ok [(c1Avail, c1Court, c1Loc)] ∧
    get_available_courts_in_time_range c1Db ⟨2025, 11, 20⟩ 1020 1140 90 none = [] := by
  constructor
  · rfl
  · rfl

/-- C1 amended: the start-time-only window semantics holds exactly for the
`run_search_task` query — membership in its result is equivalent to the
claimed conjunction of date, start-window, duration, availability, location
and category conditions, with no end-fit test — while
`get_available_courts_in_time_range` additionally requires the recomputed
slot end to fit inside the window, so every row it returns satisfies
`(start + duration) mod 1440 ≤ endRange`. -/
theorem c1_matcher_window_amended (db : DB) (d : PDate) (st en dur : Nat)
    (ct cc : String) (lids : List Nat) (rows : List ResultRow) (x : ResultRow)
    (hct : ct = "all" ∨ ct = "indoor") (hcc : cc = "all" ∨ cc = "double")
    (hq : searchTaskQuery db d st en dur ct cc lids = Except.ok rows) :
    (x ∈ rows ↔ x ∈ joinedRows db ∧ x.1.date = d ∧ st ≤ x.1.start_time ∧
      x.1.start_time ≤ en ∧ x.1.duration = dur ∧ x.1.available = true ∧
      x.2.1.location_id ∈ lids ∧
      (ct = "indoor" → x.2.1.indoor = some true) ∧
      (cc = "double" → x.2.1.double = some true)) ∧
    (∀ cd ∈ get_available_courts_in_time_range db d st en dur none,
      ∃ a ∈ db.availabilities, cd.start_time = a.start_time ∧ a.duration = dur ∧
        (a.start_time + dur) % 1440 ≤ en) := by
  have hfit : ∀ cd ∈ get_available_courts_in_time_range db d st en dur none,
      ∃ a ∈ db.availabilities, cd.start_time = a.start_time ∧ a.duration = dur ∧
        (a.start_time + dur) % 1440 ≤ en := by
    intro cd hcd
    unfold get_available_courts_in_time_range at hcd
    dsimp only at hcd
    rw [List.mem_filterMap] at hcd
    obtain ⟨a, ha, hf⟩ := hcd
    rw [List.mem_filter] at ha
    obtain ⟨hmem, hflt⟩ := ha
    have hdur : a.duration = dur := by
      simp only [Bool.and_eq_true, beq_iff_eq, decide_eq_true_eq] at hflt
      exact hflt.1.1.2
    by_cases hle : (a.start_time + dur) % 1440 ≤ en
    · rw [if_pos hle] at hf
      cases hfind : db.courts.find? (fun c => c.id == a.court_id) with
      | none => rw [hfind] at hf; exact absurd hf (by simp)
      | some c =>
          rw [hfind] at hf
          refine ⟨a, hmem, ?_, hdur, hle⟩
          rw [← Option.some.inj hf]
    · rw [if_neg hle] at hf
      exact absurd hf (by simp)
  refine ⟨?_, hfit⟩
  rcases hct with rfl | rfl <;> rcases hcc with rfl | rfl
  all_goals
    unfold searchTaskQuery categoryFilter at hq
    simp only [String.reduceEq, reduceIte] at hq
    rw [Except.ok.injEq] at hq
    subst hq
    rw [mem_orderBy, List.mem_filter]
    simp [searchTaskRowFilter, and_assoc]

/-- C1 amended claim witness: the boundary slot of the scenario database is a
member of the `run_search_task` result, and the conjunction characterizing it
holds; the end-fit bound holds for every row of the other matcher. -/
theorem c1_matcher_window_amended_witness :
    ((c1Avail, c1Court, c1Loc) ∈ [(c1Avail, c1Court, c1Loc)] ↔
      (c1Avail, c1Court, c1Loc) ∈ joinedRows c1Db ∧ c1Avail.date = ⟨2025, 11, 20⟩ ∧
      1020 ≤ c1Avail.start_time ∧ c1Avail.start_time ≤ 1140 ∧ c1Avail.duration = 90 ∧
      c1Avail.available = true ∧ c1Court.location_id ∈ [1] ∧
      (("all" : String) = "indoor" → c1Court.indoor = some true) ∧
      (("all" : String) = "double" → c1Court.double = some true)) ∧
    (∀ cd ∈ get_available_courts_in_time_range c1Db ⟨2025, 11, 20⟩ 1020 1140 90 none,
      ∃ a ∈ c1Db.availabilities, cd.start_time = a.start_time ∧ a.duration = 90 ∧
        (a.start_time + 90) % 1440 ≤ 1140) :=
  c1_matcher_window_amended c1Db ⟨2025, 11, 20⟩ 1020 1140 90 "all" "all" [1]
    [(c1Avail, c1Court, c1Loc)] (c1Avail, c1Court, c1Loc)
    (Or.inl rfl) (Or.inl rfl) rfl

/-- C6: the code at the failing input.  A running two-location search whose
task is cancelled between the two locations still processes the second
location (`processed_locations = 2`) and finally overwrites the `cancelled`
status with `completed`: `run_search_task` contains no cancellation check at
location boundaries, contradicting the claim. -/
theorem c6_cancellation_not_observed :
    (get_task c6Final.tasks "t1").map SearchTask.status = some "completed" ∧
    (get_task c6Final.tasks "t1").map SearchTask.processed_locations = some 2 := by
  constructor
  · decide
  · decide

/-- Location used for the notification-dedup scenario. -/
def c3Loc : Location := ⟨1, "Club A", "a", "Playtomic", "t1", "TZ"⟩

/-- Court used for the notification-dedup scenario. -/
def c3Court : Court := ⟨1, "Court 1", some "r1", 1, some "padel", some false, some true⟩

/-- Matching slot of the notification-dedup scenario. -/
def c3Avail : Availability := ⟨1, 1, ⟨2025, 11, 20⟩, 1020, 1080, 60, "30.00", true⟩

/-- Database of the notification-dedup scenario. -/
def c3Db : DB := ⟨[c3Loc], [c3Court], [c3Avail], 2, 2⟩

/-- Search order of the notification-dedup scenario. -/
def c3Order : SearchOrder :=
  ⟨1, some "u1", [1], ⟨2025, 11, 20⟩, 1020, 1140, 60, "all", "all", true, none⟩

/-- C3: the notification dedup invariant.  (1) A matched row is returned by
`get_notification_candidates` iff no `SearchOrderNotification` exists for its
`(search_order_id, availability_id)` pair; (2) after
`create_notification_record` is called for every returned candidate, a second
call over the unchanged matching set returns the empty list; (3) once a
record for `(search_order_id, availability_id)` exists, no later call — over
any database state, so in particular after price changes or re-fetches of the
slot — returns a candidate with that availability id again. -/
theorem c3_dedup_invariant (db : DB) (orders : List SearchOrder) (soId : Nat)
    (notifs : List SearchOrderNotification) (nextId : Nat)
    (cands : List NotificationCandidate)
    (hq : get_notification_candidates db notifs orders soId = Except.ok cands) :
    (∀ so catf, orders.find? (fun o => o.id == soId) = some so →
      categoryFilter so.court_type so.court_config = Except.ok catf →
      ∀ x ∈ (joinedRows db).filter (soRowFilter so catf),
        (candidateOf x ∈ cands ↔ notifs.find? (notifKey soId x.1.id) = none)) ∧
    get_notification_candidates db (recordAll notifs nextId soId cands).1 orders soId =
      Except.ok [] ∧
    (∀ db' notifs' cands' aid,
      (∃ n ∈ notifs', n.search_order_id = soId ∧ n.availability_id = aid) →
      get_notification_candidates db' notifs' orders soId = Except.ok cands' →
      ∀ c ∈ cands', c.availability_id ≠ aid) := by
  unfold get_notification_candidates at hq
  cases hfind : orders.find? (fun o => o.id == soId) with
  | none =>
      rw [hfind] at hq
      dsimp only at hq
      have hc : cands = [] := (Except.ok.inj hq).symm
      subst hc
      refine ⟨?_, ?_, ?_⟩
      · intro so catf hso
        exact absurd hso (by simp)
      · unfold get_notification_candidates
        rw [hfind]
      · intro db' notifs' cands' aid hex hq' c hc
        unfold get_notification_candidates at hq'
        rw [hfind] at hq'
        dsimp only at hq'
        rw [← Except.ok.inj hq'] at hc
        cases hc
  | some so =>
      rw [hfind] at hq
      dsimp only at hq
      cases hcat : categoryFilter so.court_type so.court_config with
      | error e =>
          rw [hcat] at hq
          dsimp only at hq
          cases hq
      | ok catf =>
          rw [hcat] at hq
          dsimp only at hq
          have hc : cands = ((joinedRows db).filter (soRowFilter so catf)).filterMap
              (fun x => if (notifs.find? (notifKey soId x.1.id)).isSome then none
                else some (candidateOf x)) := (Except.ok.inj hq).symm
          subst hc
          refine ⟨?_, ?_, ?_⟩
          · intro so' catf' hso' hcat' x hx
            have hso2 : so = so' := Option.some.inj hso'
            subst hso2
            rw [hcat] at hcat'
            have hcat2 : catf = catf' := Except.ok.inj hcat'
            subst hcat2
            constructor
            · intro hmem
              rw [List.mem_filterMap] at hmem
              obtain ⟨y, hy, hfy⟩ := hmem
              by_cases hs : (notifs.find? (notifKey soId y.1.id)).isSome
              · rw [if_pos hs] at hfy
                cases hfy
              · rw [if_neg hs] at hfy
                have hcy : candidateOf y = candidateOf x := Option.some.inj hfy
                have hid : y.1.id = x.1.id :=
                  congrArg NotificationCandidate.availability_id hcy
                rw [← hid]
                exact Option.not_isSome_iff_eq_none.mp hs
            · intro hnone
              rw [List.mem_filterMap]
              exact ⟨x, hx, by rw [if_neg (by rw [hnone]; simp)]⟩
          · unfold get_notification_candidates
            rw [hfind]
            dsimp only
            rw [hcat]
            dsimp only
            congr 1
            rw [List.filterMap_eq_nil]
            intro x hx
            by_cases hs : (notifs.find? (notifKey soId x.1.id)).isSome
            · obtain ⟨n, hfn⟩ := Option.isSome_iff_exists.mp hs
              have hn : n ∈ notifs := List.mem_of_find?_eq_some hfn
              have hpn : notifKey soId x.1.id n = true := List.find?_some hfn
              have hs2 : (((recordAll notifs nextId soId
                  (((joinedRows db).filter (soRowFilter so catf)).filterMap
                    (fun x => if (notifs.find? (notifKey soId x.1.id)).isSome then none
                      else some (candidateOf x)))).1).find?
                  (notifKey soId x.1.id)).isSome := by
                rw [List.find?_isSome]
                exact ⟨n, mem_recordAll_of_mem _ _ _ _ hn, hpn⟩
              rw [if_pos hs2]
            · have hmem : candidateOf x ∈
                  ((joinedRows db).filter (soRowFilter so catf)).filterMap
                    (fun x => if (notifs.find? (notifKey soId x.1.id)).isSome then none
                      else some (candidateOf x)) := by
                rw [List.mem_filterMap]
                exact ⟨x, hx, by rw [if_neg hs]⟩
              obtain ⟨n, hn, hns, hna⟩ := recordAll_adds notifs nextId soId _ hmem
              have hs2 : (((recordAll notifs nextId soId
                  (((joinedRows db).filter (soRowFilter so catf)).filterMap
                    (fun x => if (notifs.find? (notifKey soId x.1.id)).isSome then none
                      else some (candidateOf x)))).1).find?
                  (notifKey soId x.1.id)).isSome := by
                rw [List.find?_isSome]
                refine ⟨n, hn, ?_⟩
                simp [notifKey, hns, hna, candidateOf]
              rw [if_pos hs2]
          · intro db' notifs' cands' aid hex hq'
            unfold get_notification_candidates at hq'
            rw [hfind] at hq'
            dsimp only at hq'
            rw [hcat] at hq'
            dsimp only at hq'
            have hc' : cands' = ((joinedRows db').filter (soRowFilter so catf)).filterMap
                (fun x => if (notifs'.find? (notifKey soId x.1.id)).isSome then none
                  else some (candidateOf x)) := (Except.ok.inj hq').symm
            subst hc'
            intro c hc hcaid
            rw [List.mem_filterMap] at hc
            obtain ⟨y, hy, hfy⟩ := hc
            by_cases hs : (notifs'.find? (notifKey soId y.1.id)).isSome
            · rw [if_pos hs] at hfy
              cases hfy
            · rw [if_neg hs] at hfy
              have hcy : candidateOf y = c := Option.some.inj hfy
              have hyid : y.1.id = aid := by rw [← hcaid, ← hcy]; rfl
              obtain ⟨n, hn, hns, hna⟩ := hex
              have hkey : notifKey soId y.1.id n = true := by
                simp [notifKey, hns, hna, hyid]
              have hnone := Option.not_isSome_iff_eq_none.mp hs
              exact (List.find?_eq_none.mp hnone n hn) hkey

/-- C3 claim witness: in the scenario database the first call returns the
matching slot as the single candidate, and after recording it the second call
returns no candidates. -/
theorem c3_dedup_invariant_witness :
    get_notification_candidates c3Db [] [c3Order] 1 =
      Except.ok [candidateOf (c3Avail, c3Court, c3Loc)] ∧
    get_notification_candidates c3Db
      (recordAll [] 1 1 [candidateOf (c3Avail, c3Court, c3Loc)]).1 [c3Order] 1 =
      Except.ok [] :=
  ⟨rfl, (c3_dedup_invariant c3Db [c3Order] 1 [] 1
      [candidateOf (c3Avail, c3Court, c3Loc)] rfl).2.1⟩

/-- C7: scheduler resilience.  (i) A location whose fetch throws is skipped
by the per-location `try/except` and the loop continues over all remaining
locations exactly as if the failing location were absent.  (ii) In a tick
over two active orders in which every fetch of the first order's locations
throws, the first order's `last_check_at` is still stamped, and the second
order is still processed with exactly the database, `last_check_at` and
email-notification effect it would have had on its own. -/
theorem c7_scheduler_resilience (f : SchedFetcher) (now : Int) (today : PDate)
    (st : SchedState) (o1 o2 : SearchOrder)
    (horders : st.orders = [o1, o2]) (hid : o1.id ≠ o2.id)
    (hact1 : o1.is_active = true) (hact2 : o2.is_active = true)
    (hdate1 : pdateLe today o1.date = true) (hdate2 : pdateLe today o2.date = true)
    (hloc1 : (schedLocs st.db o1).isEmpty = false)
    (hloc2 : (schedLocs st.db o2).isEmpty = false)
    (hfail : ∀ l ∈ schedLocs st.db o1, ∀ d, (f l.id d).isOk = false) :
    (∀ (order : SearchOrder) (p : DB × List SchedCourtRow)
        (pre post : List Location) (lbad : Location),
      (∀ d, (f lbad.id d).isOk = false) →
      (pre ++ lbad :: post).foldl (schedSearchLocation f order) p =
        (pre ++ post).foldl (schedSearchLocation f order) p) ∧
    check_active_search_orders f now today st =
      { db := (schedRun f st.db o2).1,
        orders := [{ o1 with last_check_at := some now }, { o2 with last_check_at := some now }],
        users := st.users,
        emails := schedEmailUpdate st.users st.emails o2 (schedRun f st.db o2).2 } := by
  constructor
  · intro order p pre post lbad hbad
    exact schedFold_middle_fail f order p pre post lbad hbad
  · unfold check_active_search_orders
    have hactive : st.orders.filter (fun o => o.is_active && pdateLe today o.date) = [o1, o2] := by
      rw [horders]
      simp [hact1, hact2, hdate1, hdate2]
    rw [hactive, List.foldl_cons, List.foldl_cons, List.foldl_nil]
    have hfind1 : st.orders.find? (fun o => o.id == o1.id) = some o1 := by
      rw [horders]
      simp
    have h1 : execute_search_order_task f now st o1.id =
        { st with orders := [{ o1 with last_check_at := some now }, o2] } := by
      rw [execute_fail_all f now st o1.id o1 hfind1 hact1 hloc1 hfail]
      rw [horders]
      have hupd : updateFirst (fun o => o.id == o1.id) (fun o => { o with last_check_at := some now }) [o1, o2] = [{ o1 with last_check_at := some now }, o2] := by
        simp [updateFirst]
      rw [hupd]
    rw [h1]
    have hfind2 : ([{ o1 with last_check_at := some now }, o2] : List SearchOrder).find? (fun o => o.id == o2.id) = some o2 := by
      have hne : (({ o1 with last_check_at := some now } : SearchOrder).id == o2.id) = false := by
        simp [hid]
      rw [List.find?_cons_of_neg _ (by simp [hne]), List.find?_cons_of_pos _ (by simp)]
    have h2 := execute_ok f now { st with orders := [{ o1 with last_check_at := some now }, o2] } o2.id o2 hfind2 hact2 hloc2
    rw [h2]
    have hupd2 : updateFirst (fun o => o.id == o2.id) (fun o => { o with last_check_at := some now }) [{ o1 with last_check_at := some now }, o2] = [{ o1 with last_check_at := some now }, { o2 with last_check_at := some now }] := by
      have hne : (({ o1 with last_check_at := some now } : SearchOrder).id == o2.id) = false := by
        simp [hid]
      simp [updateFirst, hne]
    rw [hupd2]

/-- Locations of the scheduler-resilience scenario. -/
def c7Loc1 : Location := ⟨1, "Club A", "a", "Playtomic", "t1", "TZ"⟩

/-- Second location of the scheduler-resilience scenario. -/
def c7Loc2 : Location := ⟨2, "Club B", "b", "Playtomic", "t2", "TZ"⟩

/-- Court at the second location. -/
def c7Court : Court := ⟨1, "Court B1", some "r1", 2, some "padel", some true, some true⟩

/-- Matching slot at the second location. -/
def c7Avail : Availability := ⟨1, 1, ⟨2025, 11, 20⟩, 1020, 1080, 60, "25.00", true⟩

/-- Database of the scheduler-resilience scenario. -/
def c7Db : DB := ⟨[c7Loc1, c7Loc2], [c7Court], [c7Avail], 2, 2⟩

/-- Order whose only location's fetch throws. -/
def c7O1 : SearchOrder :=
  ⟨1, some "u1", [1], ⟨2025, 11, 20⟩, 1020, 1140, 60, "all", "all", true, none⟩

/-- Order whose location fetch succeeds. -/
def c7O2 : SearchOrder :=
  ⟨2, some "u2", [2], ⟨2025, 11, 20⟩, 1020, 1140, 60, "all", "all", true, none⟩

/-- Scheduler state of the scenario. -/
def c7St : SchedState := ⟨c7Db, [c7O1, c7O2], [⟨"u2", "u2@example.com"⟩], []⟩

/-- Fetcher that throws for location 1 and succeeds elsewhere. -/
def c7F : SchedFetcher := fun lid db =>
  if lid == 1 then Except.error "ConnectionError" else Except.ok (db, 1)

/-- C7 claim witness: the tick over the scenario still stamps both orders and
emits the email for the second order's match even though every fetch of the
first order's location throws. -/
theorem c7_scheduler_resilience_witness :
    check_active_search_orders c7F 99 ⟨2025, 11, 20⟩ c7St =
      { db := (schedRun c7F c7St.db c7O2).1,
        orders := [{ c7O1 with last_check_at := some 99 }, { c7O2 with last_check_at := some 99 }],
        users := c7St.users,
        emails := schedEmailUpdate c7St.users c7St.emails c7O2 (schedRun c7F c7St.db c7O2).2 } :=
  (c7_scheduler_resilience c7F 99 ⟨2025, 11, 20⟩ c7St c7O1 c7O2 rfl (by decide)
    rfl rfl rfl rfl rfl rfl
    (fun l hl d => by rw [List.mem_singleton.mp hl]; rfl)).2

/-- C10: an item of `store_internal_availabilities` whose location name
matches no stored `Location` is silently dropped by the `continue`: the run
neither errors because of it nor creates any row for it, and the resulting
state is exactly the state of the run without the item, wherever the item
sits in the input list. -/
theorem c10_unknown_location_skipped (pre post : List InternalAvailabilityDTO)
    (item : InternalAvailabilityDTO) (db : DB)
    (h : findLocation db item.location = none) :
    store_internal_availabilities (pre ++ item :: post) db =
      store_internal_availabilities (pre ++ post) db := by
  rw [store_internal_append, store_internal_append]
  cases hpre : store_internal_availabilities pre db with
  | error e => rfl
  | ok d =>
      dsimp only
      have hloc : findLocation d item.location = none := by
        rw [findLocation_congr (store_internal_locations pre hpre) item.location]
        exact h
      rw [store_internal_cons, storeInternalItem_skip hloc]

/-- Item with an unknown location name used for the skip scenario. -/
def c10Item : InternalAvailabilityDTO :=
  ⟨"Playtomic", "b7c1", "Nowhere Club", "2025-11-20", "17:00-18:00", "30.00", true⟩

/-- Known item stored before and after the unknown one in the scenario. -/
def c10Known : InternalAvailabilityDTO :=
  ⟨"Playtomic", "b7c2", "Club A", "2025-11-20", "18:00-19:00", "32.00", true⟩

/-- Database of the skip scenario: one location that is not the item's. -/
def c10Db : DB := ⟨[⟨1, "Club A", "a", "Playtomic", "t1", "TZ"⟩], [], [], 1, 1⟩

/-- C10 claim witness: with a known item on either side, the run with the
unknown-location item in the middle equals the run without it. -/
theorem c10_unknown_location_skipped_witness :
    findLocation c10Db c10Item.location = none ∧
    store_internal_availabilities ([c10Known] ++ c10Item :: [c10Known]) c10Db =
      store_internal_availabilities ([c10Known] ++ [c10Known]) c10Db :=
  ⟨rfl, c10_unknown_location_skipped [c10Known] [c10Known] c10Item c10Db rfl⟩

/-- C9: natural-key uniqueness.  Starting from a well-formed availability
table (end/duration-consistent rows, no duplicate upsert key), any sequence
of reconciliation operations — `store_internal_availabilities` runs,
`bulk_add_availabilities` runs whose records carry the consistent
end/duration pair the providers construct, and placeholder-court merges —
preserves well-formedness, and in particular no two rows of the resulting
table share the `(court, date, start_time, duration)` natural key. -/
theorem c9_natural_key_uniqueness (ops : List ReconOp) (db : DB)
    (hwf : AvailsWF db.availabilities)
    (hops : ∀ op ∈ ops, ReconOpConsistent op) :
    AvailsWF (applyReconOps db ops).availabilities ∧
    (applyReconOps db ops).availabilities.Pairwise (fun a b => durKey a ≠ durKey b) :=
  have hw := applyReconOps_wf ops db hwf hops
  ⟨hw, durKey_unique_of_wf hw⟩

/-- Database of the uniqueness scenario: one location, empty tables. -/
def c9Db : DB := ⟨[⟨1, "Club A", "a", "Playtomic", "t1", "TZ"⟩], [], [], 1, 1⟩

/-- Operation sequence of the uniqueness scenario: an internal store that
creates a placeholder court and a slot, a bulk run re-upserting the same
slot, and a merge of the placeholder court. -/
def c9Ops : List ReconOp :=
  [ReconOp.internal [⟨"Playtomic", "u1", "Club A", "2025-11-20", "17:00-18:00", "30.00", true⟩],
    ReconOp.bulk [⟨1, ⟨2025, 11, 20⟩, 1020, 1080, 60, "31.00", true⟩],
    ReconOp.merge 1 2]

/-- C9 claim witness: the scenario sequence keeps the table well-formed and
free of `(court, date, start_time, duration)` duplicates. -/
theorem c9_natural_key_uniqueness_witness :
    AvailsWF (applyReconOps c9Db c9Ops).availabilities ∧
    (applyReconOps c9Db c9Ops).availabilities.Pairwise
      (fun a b => durKey a ≠ durKey b) :=
  c9_natural_key_uniqueness c9Ops c9Db
    ⟨fun a ha => absurd ha (List.not_mem_nil a), List.Pairwise.nil⟩
    (by
      intro op hop
      simp only [c9Ops, List.mem_cons, List.not_mem_nil, or_false] at hop
      rcases hop with rfl | rfl | rfl
      · exact trivial
      · intro r hr
        rw [List.mem_singleton.mp hr]
        show (1080 : Nat) = (1020 + 60) % 1440
        decide
      · exact trivial)

end PadelWatcher
